import Mathlib

/-!
# Verification of the magnum `sceneconverter` pipeline orchestration

Shallow embedding of `src/Magnum/SceneTools/sceneconverter.cpp` (the `main`
function past command-line parsing, which the spec declares out of scope).
External collaborators — importer plugins, converter plugins, the
duplicate-removal algorithms and `Utility::String::parseNumberSequence` —
are modelled as data supplied in a `World`, exactly as the spec treats them
(interface-boundary contracts only).  Pure geometry helpers that live in
headers outside the source sample (`MeshTools::concatenate`,
`SceneTools::flattenMeshHierarchy3D`, `MeshTools::transform3D`) are modelled
from the spec, and carry doc comments saying so.

The pipeline `run` returns the produced event trace together with the exit
status of `main`; `ExitStatus.abort` models a failed `CORRADE_ASSERT`
(process abort), distinct from every `return n`.
-/

namespace SceneConv

/-- Mesh primitive topology tag (`MeshPrimitive`).  Strip/fan/loop forms are
the ones the concatenation stage cannot sum directly. -/
inductive Primitive where
  | points
  | lines
  | lineStrip
  | lineLoop
  | triangles
  | triangleStrip
  | triangleFan
deriving DecidableEq, Repr

/-- Attribute name: a builtin `Trade::MeshAttribute` value or a custom one
carrying its small integer id (`meshAttributeCustom`). -/
inductive MeshAttribute where
  | builtin (n : Nat)
  | custom (id : Nat)
deriving DecidableEq, Repr

/-- `isMeshAttributeCustom`. -/
def MeshAttribute.isCustom : MeshAttribute → Bool
  | .custom _ => true
  | .builtin _ => false

/-- One entry of a mesh's attribute list (`Trade::MeshAttributeData`).
Only the declared name matters for the orchestration layer; the raw vertex
values are floating-point data and are not modelled. -/
structure MeshAttributeData where
  name : MeshAttribute
deriving DecidableEq, Repr

/-- `Trade::MeshData`, restricted to the structure the orchestration code
inspects: primitive tag, optional index buffer, vertex count and the ordered
attribute list.  Vertex/index payload values are floating-point or opaque
bytes and are not modelled. -/
structure MeshData where
  primitive : Primitive
  indices : Option (List Nat)
  vertexCount : Nat
  attributes : List MeshAttributeData
deriving DecidableEq, Repr

/-- A 4x4 transform matrix; its numeric entries are floating point and only
flow through the external `transform3D` collaborator, so they are opaque. -/
structure Matrix4 where
  tag : Nat
deriving DecidableEq, Repr

/-- `Trade::SceneData`, modelled by the list of (mesh index, world transform)
pairs its hierarchy flattens to, since the orchestration code only consumes
it through `flattenMeshHierarchy3D`. -/
structure SceneData where
  meshTransformations : List (Nat × Matrix4)

/-- Content Source interface (`Trade::AbstractImporter`), specified at the
collaborator boundary in spec section 6. -/
structure Importer where
  meshCount : Nat
  mesh : Nat → Nat → Option MeshData
  defaultScene : Option Nat
  scene : Nat → Option SceneData
  meshName : Nat → String
  meshAttributeName : Nat → String

/-- Declared converter capability flags (`Trade::SceneConverterFeature`). -/
structure Features where
  convertMesh : Bool
  convertMultiple : Bool
  convertMeshToFile : Bool
  convertMultipleToFile : Bool
deriving DecidableEq, Repr

/-- The set of content categories (`Trade::SceneContents`). -/
structure SceneContents where
  scenes : Bool
  animations : Bool
  lights : Bool
  cameras : Bool
  skins : Bool
  materials : Bool
  meshes : Bool
  textures : Bool
  images : Bool
  names : Bool
deriving DecidableEq, Repr

/-- `~Trade::SceneContents{}` — all categories set (line 752 of the source). -/
def fullContents : SceneContents :=
  ⟨true, true, true, true, true, true, true, true, true, true⟩

/-- `contents &= ~Trade::SceneContent::Meshes` (line 793). -/
def SceneContents.clearMeshes (c : SceneContents) : SceneContents :=
  { c with meshes := false }

/-- Pointwise Boolean subset test on content masks. -/
def SceneContents.subset (x y : SceneContents) : Bool :=
  (!x.scenes || y.scenes) && (!x.animations || y.animations) &&
  (!x.lights || y.lights) && (!x.cameras || y.cameras) &&
  (!x.skins || y.skins) && (!x.materials || y.materials) &&
  (!x.meshes || y.meshes) && (!x.textures || y.textures) &&
  (!x.images || y.images) && (!x.names || y.names)

/-- Content Sink interface (`Trade::AbstractSceneConverter`), specified at
the collaborator boundary: capability flags, the begin/add/end protocol
outcomes, and the derived `sceneContentsFor` mask. -/
structure Converter where
  features : Features
  supportedContents : SceneContents
  beginOk : Bool
  beginFileOk : Bool
  addMesh : MeshData → String → Bool
  addImporterContentsOk : Bool
  endResult : Option Importer
  endFileOk : Bool
  convert : MeshData → Option MeshData

/-- The command-line options relevant to the conversion pipeline, already
parsed (flag parsing is out of scope per spec section 1).  An `Option`/empty
field models an option the user did not pass. -/
structure Args where
  output : String
  converters : List String
  meshConverters : List String
  onlyMeshAttributes : Option String
  removeDuplicateVertices : Bool
  removeDuplicateVerticesFuzzy : Option Nat
  mesh : Option Nat
  meshLevel : Option Nat
  concatenateMeshes : Bool
  infoRequested : Bool
  verbose : Bool

/-- The external collaborators of one pipeline run: the importer plugin and
whether it loads and opens, the converter plugin registry, the pure
duplicate-removal algorithms and Corrade's number-sequence parser (all
declared external in spec sections 1 and 6). -/
structure World where
  importerPluginOk : Bool
  importer : Importer
  openOk : Bool
  printInfoError : Bool
  converterPlugin : String → Option Converter
  removeDuplicates : MeshData → MeshData
  removeDuplicatesFuzzy : Nat → MeshData → MeshData
  parseNumberSequence : String → Nat → Nat → Option (List Nat)

/-- Exit status of `main`: `exit n` is `return n` (falling off the end is
`exit 0`), `abort` is a failed `CORRADE_ASSERT`. -/
inductive ExitStatus where
  | exit (code : Nat)
  | abort
deriving DecidableEq, Repr

/-- Observable events of one pipeline run, in emission order.  Each
constructor corresponds to one call site in `main`; `i` is a mesh index in
phase-2/3 events and the converter-chain stage index in phase-4 events. -/
inductive Ev where
  | configError
  | constructManagers
  | loadImporterPlugin
  | openInput
  | importMeshConcat (i : Nat)
  | importScene
  | concatenate
  | importSingleMesh
  | filterAttributes
  | importMesh (i : Nat)
  | dedupExact (i : Nat)
  | dedupFuzzy (i : Nat)
  | loadMeshConverterPlugin (i j : Nat)
  | meshConvert (i j : Nat)
  | loadConverterPlugin (i : Nat)
  | featureMismatch (i : Nat)
  | beginFile (i : Nat)
  | beginConv (i : Nat)
  | skipMeshes (i : Nat)
  | setAttrName (i k id : Nat)
  | addMesh (i k : Nat)
  | addContents (i : Nat) (c : SceneContents)
  | endFile (i : Nat)
deriving DecidableEq, Repr

abbrev Trace := List Ev

/-- The phase of `main` an event is emitted from: 0 generic option checks,
1 plugin-manager/importer setup, 2 the single-mesh/concatenation block,
3 the per-mesh preprocessing loop, 4 the converter chain. -/
def Ev.major : Ev → Nat
  | .configError => 0
  | .constructManagers => 1
  | .loadImporterPlugin => 1
  | .openInput => 1
  | .importMeshConcat _ => 2
  | .importScene => 2
  | .concatenate => 2
  | .importSingleMesh => 2
  | .filterAttributes => 2
  | .importMesh _ => 3
  | .dedupExact _ => 3
  | .dedupFuzzy _ => 3
  | .loadMeshConverterPlugin _ _ => 3
  | .meshConvert _ _ => 3
  | _ => 4

/-- The converter-chain stage an event belongs to, if it is a chain event. -/
def Ev.stageIdx : Ev → Option Nat
  | .loadConverterPlugin i => some i
  | .featureMismatch i => some i
  | .beginFile i => some i
  | .beginConv i => some i
  | .skipMeshes i => some i
  | .setAttrName i _ _ => some i
  | .addMesh i _ => some i
  | .addContents i _ => some i
  | .endFile i => some i
  | _ => none

/-- Event classifier: the attribute-id filtering operation. -/
def Ev.isFilter : Ev → Bool
  | .filterAttributes => true
  | _ => false

/-- Event classifier: exact duplicate removal on any mesh. -/
def Ev.isDedupExactEv : Ev → Bool
  | .dedupExact _ => true
  | _ => false

/-- Event classifier: fuzzy duplicate removal on any mesh. -/
def Ev.isDedupFuzzyEv : Ev → Bool
  | .dedupFuzzy _ => true
  | _ => false

/-- Event classifier: either duplicate-removal mode on mesh `i`. -/
def Ev.isDedupOf (i : Nat) : Ev → Bool
  | .dedupExact k => k == i
  | .dedupFuzzy k => k == i
  | _ => false

/-- Event classifier: a mesh-converter-plugin application to mesh `i`. -/
def Ev.isMeshConvertOf (i : Nat) : Ev → Bool
  | .meshConvert k _ => k == i
  | _ => false

/-- Event classifier: any per-mesh operation that the spec places after
attribute filtering in the amended ordering (duplicate removal or a
mesh-converter application). -/
def Ev.isPostFilterOp (e : Ev) : Bool :=
  e.isDedupExactEv || e.isDedupFuzzyEv ||
    (match e with | .meshConvert _ _ => true | _ => false)

/-! ## Operations modelled from the spec

These live in headers that are not part of the source sample (only included
from it), so they are modelled from the spec's words per section 4.3. -/

/-- Modelled from the spec: a primitive topology is directly summable when it
is not a strip/fan/loop form (`MeshTools::concatenate` is not under `src/`).
-/
def primitiveSummable : Primitive → Bool
  | .points => true
  | .lines => true
  | .triangles => true
  | _ => false

/-- The spec's concatenation precondition (section 4.3): a non-empty mesh
set sharing one directly-summable primitive topology — the first mesh's
primitive is summable (no strip/fan/loop form) and every other mesh has the
same primitive.  This is exactly the guard of `concatenate`; its violation
(a mix such as triangles with lines, or any strip/fan form anywhere in the
set) is the fatal, non-recoverable case. -/
def summableTopology : List MeshData → Bool
  | [] => false
  | m :: rest =>
    primitiveSummable m.primitive
      && rest.all (fun x => x.primitive == m.primitive)

/-- Modelled from the spec: `MeshTools::concatenate` (header not under
`src/`).  All meshes must share a directly-summable primitive topology —
violation is the fatal assertion, modelled as `none`.  The result's vertex
count is the sum of the inputs' in order; the output attribute set is taken
only from the first mesh.  The merged index buffer's contents are data
values and are not modelled. -/
def concatenate : List MeshData → Option MeshData
  | [] => none
  | m :: rest =>
    if primitiveSummable m.primitive
        && rest.all (fun x => x.primitive == m.primitive) then
      some { primitive := m.primitive
             indices := none
             vertexCount :=
               m.vertexCount + (rest.map (·.vertexCount)).foldr (· + ·) 0
             attributes := m.attributes }
    else
      none

/-- Modelled from the spec: `SceneTools::flattenMeshHierarchy3D` (not under
`src/`) resolves the node tree into a flat (mesh index, world transform)
list; the scene value is modelled directly by that list. -/
def flattenMeshHierarchy3D (s : SceneData) : List (Nat × Matrix4) :=
  s.meshTransformations

/-- Modelled from the spec: `MeshTools::transform3D` (not under `src/`)
applies the transform to the positional/directional attribute values only;
since those float values are not modelled, the mesh record is unchanged. -/
def transform3D (m : MeshData) (_t : Matrix4) : MeshData := m

/-! ## The Single-Source Adapter (`SingleMeshImporter`, lines 545-581) -/

/-- The `attributeNames` array built by the `SingleMeshImporter` constructor
(lines 546-554): for every attribute of the carried mesh whose name is
custom, one `(id, name)` pair with the name resolved eagerly from the
original source — even empty names are appended. -/
def singleMeshAttributeNames (m : MeshData) (original : Importer) :
    List (Nat × String) :=
  m.attributes.filterMap fun ad =>
    match ad.name with
    | .custom id => some (id, original.meshAttributeName id)
    | .builtin _ => none

/-- `SingleMeshImporter::doMeshAttributeName` (lines 564-573): first
matching entry of the table; `none` models the
`CORRADE_INTERNAL_ASSERT_UNREACHABLE` branch. -/
def smDoMeshAttributeName (table : List (Nat × String)) (id : Nat) :
    Option String :=
  match table with
  | [] => none
  | (k, s) :: rest => if k = id then some s else smDoMeshAttributeName rest id

/-- The synthesized single-mesh Content Source: reports exactly one mesh,
answers every mesh query with (a reference to) the carried mesh, has no
scenes, and serves attribute names from the eagerly built table.  The
`getD ""` can only trigger where `smDoMeshAttributeName` would hit the
unreachable-assert branch. -/
def singleMeshImporter (m : MeshData) (nm : String) (original : Importer) :
    Importer :=
  let table := singleMeshAttributeNames m original
  { meshCount := 1
    mesh := fun _ _ => some m
    defaultScene := none
    scene := fun _ => none
    meshName := fun _ => nm
    meshAttributeName := fun id => (smDoMeshAttributeName table id).getD "" }

/-! ## The pipeline, block by block -/

/-- The generic option checks (lines 354-375), run before any plugin manager
exists: `--mesh`/`--concatenate-meshes` mutual exclusion, `--mesh-level`
needing `--mesh`, `--only-mesh-attributes` needing one of the single-mesh
modes.  Each failure is `return 1`. -/
def genericChecks (a : Args) : Trace × Option ExitStatus :=
  if a.concatenateMeshes && a.mesh.isSome then
    ([.configError], some (.exit 1))
  else if a.meshLevel.isSome && !a.mesh.isSome then
    ([.configError], some (.exit 1))
  else if a.onlyMeshAttributes.isSome && !a.mesh.isSome
      && !a.concatenateMeshes then
    ([.configError], some (.exit 1))
  else
    ([], none)

/-- Plugin-manager construction, importer plugin load (`return 1` on
failure), opening/mapping the input (`return 3` on failure) and the
`--info` early exit (lines 377-441). -/
def setupImporter (a : Args) (w : World) : Trace × Except ExitStatus Unit :=
  if !w.importerPluginOk then
    ([.constructManagers, .loadImporterPlugin], .error (.exit 1))
  else if !w.openOk then
    ([.constructManagers, .loadImporterPlugin, .openInput], .error (.exit 3))
  else if a.infoRequested then
    ([.constructManagers, .loadImporterPlugin, .openInput],
     .error (.exit (if w.printInfoError then 1 else 0)))
  else
    ([.constructManagers, .loadImporterPlugin, .openInput], .ok ())

/-- The mesh-collecting loop of the `--concatenate-meshes` branch
(lines 464-477): import every mesh in order, `return 1` on any failure. -/
def importConcatLoop (imp : Importer) : List Nat →
    Trace × Except ExitStatus (List MeshData)
  | [] => ([], .ok [])
  | i :: rest =>
    match imp.mesh i 0 with
    | none => ([.importMeshConcat i], .error (.exit 1))
    | some m =>
      match importConcatLoop imp rest with
      | (t, .error st) => (.importMeshConcat i :: t, .error st)
      | (t, .ok ms) => (.importMeshConcat i :: t, .ok (m :: ms))

/-- The `--concatenate-meshes` branch (lines 457-508): import all meshes,
bake in the default scene's hierarchy transforms when one exists (otherwise
the meshes stay in import order at the identity transform), then
concatenate.  An incompatible-primitive set makes `MeshTools::concatenate`
assert, modelled as `ExitStatus.abort`. -/
def concatenateMeshesBranch (imp : Importer) :
    Trace × Except ExitStatus MeshData :=
  if imp.meshCount == 0 then
    ([], .error (.exit 1))
  else
    match importConcatLoop imp (List.range imp.meshCount) with
    | (t, .error st) => (t, .error st)
    | (t, .ok ms) =>
      match imp.defaultScene with
      | some s =>
        match imp.scene s with
        | none => (t ++ [.importScene], .error (.exit 1))
        | some sc =>
          let flattened := (flattenMeshHierarchy3D sc).filterMap
            fun p => (ms.get? p.1).map fun m => transform3D m p.2
          (t ++ [.importScene, .concatenate],
           match concatenate flattened with
           | none => .error .abort
           | some m => .ok m)
      | none =>
        (t ++ [.concatenate],
         match concatenate ms with
         | none => .error .abort
         | some m => .ok m)

/-- The single-mesh import of the `--mesh` branch (lines 511-517),
`return 4` on failure. -/
def singleImportBranch (a : Args) (imp : Importer) :
    Trace × Except ExitStatus MeshData :=
  match imp.mesh (a.mesh.getD 0) (a.meshLevel.getD 0) with
  | none => ([.importSingleMesh], .error (.exit 4))
  | some m => ([.importSingleMesh], .ok m)

/-- The `--only-mesh-attributes` filtering (lines 519-539): parse the id
sequence against the attribute count (`return 2` on parse failure), keep
exactly the listed attributes in list order, and rebuild the mesh with the
same primitive, index buffer and vertex count. -/
def filterBlock (a : Args) (w : World) (m : MeshData) :
    Trace × Except ExitStatus MeshData :=
  match a.onlyMeshAttributes with
  | none => ([], .ok m)
  | some s =>
    match w.parseNumberSequence s 0 m.attributes.length with
    | none => ([], .error (.exit 2))
    | some only =>
      ([.filterAttributes],
       .ok { m with attributes := only.filterMap fun ix => m.attributes.get? ix })

/-- The single-mesh/concatenation block (lines 446-594): when `--mesh` or
`--concatenate-meshes` is requested, obtain the one mesh, filter its
attributes if requested, and replace the importer by the Single-Source
Adapter wrapping that mesh (the display name is propagated only for
`--mesh`). -/
def singleMeshStage (a : Args) (w : World) (imp : Importer) :
    Trace × Except ExitStatus Importer :=
  if a.concatenateMeshes || a.mesh.isSome then
    match (if a.concatenateMeshes then concatenateMeshesBranch imp
           else singleImportBranch a imp) with
    | (t, .error st) => (t, .error st)
    | (t, .ok m) =>
      match filterBlock a w m with
      | (t2, .error st) => (t ++ t2, .error st)
      | (t2, .ok m2) =>
        let nm := match a.mesh with
          | some id => imp.meshName id
          | none => ""
        (t ++ t2, .ok (singleMeshImporter m2 nm imp))
  else
    ([], .ok imp)

/-- The mesh-converter chain applied to mesh `i` (lines 646-680): load each
plugin (`return 2` if not found), require the `ConvertMesh` feature
(`return 1` otherwise), and pipe the mesh through (`return 1` on a failed
conversion). -/
def meshConvFold (w : World) (i j : Nat) (convs : List String) (m : MeshData) :
    Trace × Except ExitStatus MeshData :=
  match convs with
  | [] => ([], .ok m)
  | nmc :: rest =>
    match w.converterPlugin nmc with
    | none => ([.loadMeshConverterPlugin i j], .error (.exit 2))
    | some conv =>
      if !conv.features.convertMesh then
        ([.loadMeshConverterPlugin i j], .error (.exit 1))
      else
        match conv.convert m with
        | none =>
          ([.loadMeshConverterPlugin i j, .meshConvert i j], .error (.exit 1))
        | some m2 =>
          match meshConvFold w i (j+1) rest m2 with
          | (t, r) => (.loadMeshConverterPlugin i j :: .meshConvert i j :: t, r)

/-- The duplicate-removal block for mesh `i` (lines 615-644): the fuzzy mode
wins whenever its epsilon option was passed, otherwise the exact mode runs
when requested; at most one of the two external algorithms is invoked. -/
def dedupBlock (a : Args) (w : World) (i : Nat) (m : MeshData) :
    Trace × MeshData :=
  match a.removeDuplicateVerticesFuzzy with
  | some eps => ([.dedupFuzzy i], w.removeDuplicatesFuzzy eps m)
  | none =>
    if a.removeDuplicateVertices then ([.dedupExact i], w.removeDuplicates m)
    else ([], m)

/-- Per-mesh preprocessing (lines 615-680): duplicate removal, then the
mesh-converter chain. -/
def preprocessOne (a : Args) (w : World) (i : Nat) (m : MeshData) :
    Trace × Except ExitStatus MeshData :=
  match dedupBlock a w i m with
  | (t1, m1) =>
    match meshConvFold w i 0 a.meshConverters m1 with
    | (t2, r) => (t1 ++ t2, r)

/-- The preprocessing loop body over mesh indices (lines 603-683): import
each mesh (`return 1` on failure) and preprocess it; the results are
collected as the loose mesh array. -/
def preprocessLoop (a : Args) (w : World) (imp : Importer) : List Nat →
    Trace × Except ExitStatus (List MeshData)
  | [] => ([], .ok [])
  | i :: rest =>
    match imp.mesh i 0 with
    | none => ([.importMesh i], .error (.exit 1))
    | some m =>
      match preprocessOne a w i m with
      | (t1, .error st) => (.importMesh i :: t1, .error st)
      | (t1, .ok m2) =>
        match preprocessLoop a w imp rest with
        | (t2, .error st) => (.importMesh i :: (t1 ++ t2), .error st)
        | (t2, .ok ms) => (.importMesh i :: (t1 ++ t2), .ok (m2 :: ms))

/-- The Mesh Preprocessing stage (lines 596-684): the loop only runs when
duplicate removal, fuzzy removal or at least one mesh converter was
requested; otherwise no loose mesh array is produced. -/
def preprocessMeshes (a : Args) (w : World) (imp : Importer) :
    Trace × Except ExitStatus (List MeshData) :=
  if a.removeDuplicateVertices || a.removeDuplicateVerticesFuzzy.isSome
      || !a.meshConverters.isEmpty then
    preprocessLoop a w imp (List.range imp.meshCount)
  else
    ([], .ok [])

/-- Custom-attribute-name propagation for one loose mesh (lines 768-781):
for every custom attribute of the mesh, re-resolve its name from the current
importer and forward it to the converter unless it is empty. -/
def attrPropagate (imp : Importer) (idx k : Nat) (m : MeshData) : Trace :=
  m.attributes.filterMap fun ad =>
    match ad.name with
    | .custom id =>
      if imp.meshAttributeName id ≠ "" then some (.setAttrName idx k id)
      else none
    | .builtin _ => none

/-- The display name passed together with a loose mesh (line 783): the
importer's mesh name while `Names` is still in the content mask, empty
otherwise. -/
def looseMeshName (imp : Importer) (contents : SceneContents) (k : Nat) :
    String :=
  if contents.names then imp.meshName k else ""

/-- Adding the loose meshes one by one to the stage-`idx` converter
(lines 760-787): propagate attribute names, pass the display name only while
`Names` is still in the content mask, `return 1` on a failed `add`. -/
def addMeshesLoop (c : Converter) (imp : Importer) (contents : SceneContents)
    (idx k : Nat) : List MeshData → Trace × Option ExitStatus
  | [] => ([], none)
  | m :: rest =>
    if c.addMesh m (looseMeshName imp contents k) then
      match addMeshesLoop c imp contents idx (k+1) rest with
      | (t, r) => (attrPropagate imp idx k m ++ .addMesh idx k :: t, r)
    else
      (attrPropagate imp idx k m ++ [.addMesh idx k], some (.exit 1))

/-- The last-stage test (line 707): `i + 1 >= converterCount` — with `names`
the remaining stage list including the implicit trailing
`AnySceneConverter`, that is `names.length ≤ 2` — and the converter declares
a to-file capability. -/
def isLastStage (c : Converter) (names : List String) : Bool :=
  decide (names.length ≤ 2)
    && (c.features.convertMeshToFile || c.features.convertMultipleToFile)

/-- Opening a stage (lines 719-746): the last stage begins the output file
(`return 1` on failure); a non-last stage must declare `ConvertMesh` or
`ConvertMultiple` (`return 6` otherwise — the feature-mismatch error, raised
before `begin` and before any data is added) and then begins an importer
conversion (`return 1` on failure). -/
def beginStage (c : Converter) (idx : Nat) (isLast : Bool) :
    Trace × Option ExitStatus :=
  if isLast then
    ([.beginFile idx], if c.beginFileOk then none else some (.exit 1))
  else if !(c.features.convertMesh || c.features.convertMultiple) then
    ([.featureMismatch idx], some (.exit 6))
  else
    ([.beginConv idx], if c.beginOk then none else some (.exit 1))

/-- The loose-mesh block of one stage (lines 754-801): when the loose mesh
array is non-empty, either skip it with a warning (converter cannot accept
meshes) or add each mesh; in both non-failing cases the `Meshes` category is
cleared from the mask and the array is emptied, so skipped meshes are
dropped for good.  Returns (trace, mask afterwards, array afterwards,
early-exit status). -/
def looseMeshStep (c : Converter) (imp : Importer) (idx : Nat)
    (contents : SceneContents) (ms : List MeshData) :
    Trace × SceneContents × List MeshData × Option ExitStatus :=
  if ms.isEmpty then
    ([], contents, ms, none)
  else if !c.supportedContents.meshes then
    ([.skipMeshes idx], contents.clearMeshes, [], none)
  else
    match addMeshesLoop c imp contents idx 0 ms with
    | (t, some st) => (t, contents, ms, some st)
    | (t, none) => (t, contents.clearMeshes, [], none)

/-- The Converter Chain Driver (lines 686-835).  `names` is the remaining
stage list with the implicit trailing `AnySceneConverter` already appended.
Each iteration: load the stage plugin (`return 2` if absent), open the
stage (`beginStage`), push the loose meshes (`looseMeshStep`), push the
remaining importer contents (`return 5` on failure), and either end the
file (`return 5` on failure, success terminates the loop) or turn the stage
output into the next iteration's importer (`return 1` on failure). -/
def convChainGo (w : World) (idx : Nat) (names : List String)
    (imp : Importer) (ms : List MeshData) : Trace × ExitStatus :=
  match names with
  | [] => ([], .exit 0)
  | nm :: rest =>
    match w.converterPlugin nm with
    | none => ([.loadConverterPlugin idx], .exit 2)
    | some c =>
      match beginStage c idx (isLastStage c (nm :: rest)) with
      | (tB, some st) => (.loadConverterPlugin idx :: tB, st)
      | (tB, none) =>
        match looseMeshStep c imp idx fullContents ms with
        | (tM, _, _, some st) => (.loadConverterPlugin idx :: (tB ++ tM), st)
        | (tM, contents2, ms2, none) =>
          if !c.addImporterContentsOk then
            (.loadConverterPlugin idx :: (tB ++ tM ++ [.addContents idx contents2]),
             .exit 5)
          else if isLastStage c (nm :: rest) then
            (.loadConverterPlugin idx :: (tB ++ tM ++ [.addContents idx contents2, .endFile idx]),
             if c.endFileOk then .exit 0 else .exit 5)
          else
            match c.endResult with
            | none =>
              (.loadConverterPlugin idx :: (tB ++ tM ++ [.addContents idx contents2]),
               .exit 1)
            | some imp2 =>
              match convChainGo w (idx+1) rest imp2 ms2 with
              | (t2, st) =>
                (.loadConverterPlugin idx :: (tB ++ tM ++ [.addContents idx contents2] ++ t2),
                 st)

/-- The whole pipeline run: generic checks, setup, the single-mesh /
concatenation block, per-mesh preprocessing, then the converter chain with
the implicit trailing `AnySceneConverter`. -/
def run (a : Args) (w : World) : Trace × ExitStatus :=
  match genericChecks a with
  | (t0, some st) => (t0, st)
  | (t0, none) =>
    match setupImporter a w with
    | (t1, .error st) => (t0 ++ t1, st)
    | (t1, .ok _) =>
      match singleMeshStage a w w.importer with
      | (t2, .error st) => (t0 ++ t1 ++ t2, st)
      | (t2, .ok imp2) =>
        match preprocessMeshes a w imp2 with
        | (t3, .error st) => (t0 ++ t1 ++ t2 ++ t3, st)
        | (t3, .ok ms) =>
          match convChainGo w 0 (a.converters ++ ["AnySceneConverter"]) imp2 ms with
          | (t4, st) => (t0 ++ t1 ++ t2 ++ t3 ++ t4, st)

/-! ## Concrete collaborator instances used by witnesses -/

/-- A small triangle mesh with one custom attribute (id 5). -/
def sampleMesh : MeshData :=
  { primitive := .triangles, indices := some [0, 1, 2], vertexCount := 3,
    attributes := [⟨.custom 5⟩, ⟨.builtin 0⟩] }

/-- A 4-vertex triangle mesh. -/
def meshTri4 : MeshData :=
  { primitive := .triangles, indices := none, vertexCount := 4,
    attributes := [⟨.builtin 0⟩, ⟨.custom 2⟩] }

/-- A 3-vertex triangle mesh with a different attribute set. -/
def meshTri3 : MeshData :=
  { primitive := .triangles, indices := none, vertexCount := 3,
    attributes := [⟨.builtin 0⟩] }

/-- A 3-vertex line mesh. -/
def meshLin3 : MeshData :=
  { primitive := .lines, indices := none, vertexCount := 3,
    attributes := [⟨.builtin 0⟩] }

/-- An importer exposing exactly `sampleMesh`. -/
def sampleImporter : Importer :=
  { meshCount := 1, mesh := fun _ _ => some sampleMesh, defaultScene := none,
    scene := fun _ => none, meshName := fun _ => "m0",
    meshAttributeName := fun _ => "attr" }

/-- An importer with a triangle mesh and a line mesh and no default scene. -/
def mixedImporter : Importer :=
  { meshCount := 2,
    mesh := fun i _ => if i == 0 then some meshTri4
            else if i == 1 then some meshLin3 else none,
    defaultScene := none, scene := fun _ => none,
    meshName := fun _ => "m", meshAttributeName := fun _ => "" }

/-- An importer with two triangle meshes (4 and 3 vertices) and no default
scene. -/
def twoTriImporter : Importer :=
  { meshCount := 2,
    mesh := fun i _ => if i == 0 then some meshTri4
            else if i == 1 then some meshTri3 else none,
    defaultScene := none, scene := fun _ => none,
    meshName := fun _ => "m", meshAttributeName := fun _ => "" }

/-- A fully-capable, always-succeeding converter. -/
def anyConverter : Converter :=
  { features := ⟨false, true, false, true⟩, supportedContents := fullContents,
    beginOk := true, beginFileOk := true, addMesh := fun _ _ => true,
    addImporterContentsOk := true, endResult := some sampleImporter,
    endFileOk := true, convert := fun m => some m }

/-- A converter declaring only `ConvertMesh`. -/
def meshOnlyConverter : Converter :=
  { anyConverter with features := ⟨true, false, false, false⟩ }

/-- A converter declaring no capability at all. -/
def noFeatureConverter : Converter :=
  { anyConverter with features := ⟨false, false, false, false⟩ }

/-- A baseline argument set: plain whole-scene conversion, no options. -/
def baseArgs : Args :=
  { output := "out", converters := [], meshConverters := [],
    onlyMeshAttributes := none, removeDuplicateVertices := false,
    removeDuplicateVerticesFuzzy := none, mesh := none, meshLevel := none,
    concatenateMeshes := false, infoRequested := false, verbose := false }

/-- A baseline world: everything loads, opens and succeeds. -/
def baseWorld : World :=
  { importerPluginOk := true, importer := sampleImporter, openOk := true,
    printInfoError := false,
    converterPlugin := fun n =>
      if n = "AnySceneConverter" then some anyConverter else none,
    removeDuplicates := fun m => m, removeDuplicatesFuzzy := fun _ m => m,
    parseNumberSequence := fun _ _ hi => some (List.range hi) }

/-- `--mesh 0 --only-mesh-attributes 0 --remove-duplicate-vertices`: both
attribute filtering and exact duplicate removal requested on one mesh. -/
def argsFilterDedup : Args :=
  { baseArgs with mesh := some 0, onlyMeshAttributes := some "0",
                  removeDuplicateVertices := true }

/-- `--concatenate-meshes --mesh 0`: the mutually exclusive pair. -/
def argsBadOption : Args :=
  { baseArgs with concatenateMeshes := true, mesh := some 0 }

/-- `--remove-duplicate-vertices` alone: produces a loose mesh array. -/
def argsDedup : Args :=
  { baseArgs with removeDuplicateVertices := true }

/-- `--mesh 0` alone. -/
def argsMesh0 : Args :=
  { baseArgs with mesh := some 0 }

/-- `--concatenate-meshes` alone. -/
def argsConcat : Args :=
  { baseArgs with concatenateMeshes := true }

/-- `--remove-duplicate-vertices -M MC`: dedup then one mesh converter. -/
def argsMeshConv : Args :=
  { baseArgs with removeDuplicateVertices := true, meshConverters := ["MC"] }

/-- World whose input cannot be opened. -/
def worldOpenFail : World := { baseWorld with openOk := false }

/-- World whose importer fails to import mesh 0. -/
def worldImportFail : World :=
  { baseWorld with importer := { sampleImporter with mesh := fun _ _ => none } }

/-- World with no converter plugin at all. -/
def worldNotFound : World := { baseWorld with converterPlugin := fun _ => none }

/-- World whose only converter declares no capability. -/
def worldNoFeatures : World :=
  { baseWorld with converterPlugin := fun n =>
      if n = "AnySceneConverter" then some noFeatureConverter else none }

/-- A converter that rejects every added mesh. -/
def addFailConverter : Converter :=
  { anyConverter with addMesh := fun _ _ => false }

/-- World whose converter rejects every added mesh. -/
def worldAddFail : World :=
  { baseWorld with converterPlugin := fun n =>
      if n = "AnySceneConverter" then some addFailConverter else none }

/-- A converter that fails to finalize the output file. -/
def endFileFailConverter : Converter :=
  { anyConverter with endFileOk := false }

/-- World whose converter fails to finalize the output file. -/
def worldEndFileFail : World :=
  { baseWorld with converterPlugin := fun n =>
      if n = "AnySceneConverter" then some endFileFailConverter else none }

/-- World with a `ConvertMesh`-only first converter under the name
`MeshOnly`, and the usual `AnySceneConverter`. -/
def worldMeshOnly : World :=
  { baseWorld with converterPlugin := fun n =>
      if n = "MeshOnly" then some meshOnlyConverter
      else if n = "AnySceneConverter" then some anyConverter else none }

/-- `-C MeshOnly`, whole-scene mode. -/
def argsMeshOnly : Args := { baseArgs with converters := ["MeshOnly"] }

/-- A converter declaring only `ConvertMesh`, converting successfully. -/
def mcConverter : Converter :=
  { anyConverter with features := ⟨true, false, false, false⟩ }

/-- World providing the `MC` mesh converter. -/
def worldMeshConv : World :=
  { baseWorld with converterPlugin := fun n =>
      if n = "MC" then some mcConverter
      else if n = "AnySceneConverter" then some anyConverter else none }

/-- World whose importer mixes triangle and line meshes. -/
def worldMixed : World := { baseWorld with importer := mixedImporter }

/-- World with two triangle meshes to concatenate. -/
def worldTwoTri : World := { baseWorld with importer := twoTriImporter }

/-- A 4-vertex triangle-strip mesh — a form the concatenation stage cannot
sum. -/
def meshStrip2 : MeshData :=
  { primitive := .triangleStrip, indices := none, vertexCount := 4,
    attributes := [⟨.builtin 0⟩] }

/-- A scene whose flattened hierarchy references meshes 0 and 1, both at
the identity transform. -/
def sceneBoth : SceneData := ⟨[(0, ⟨0⟩), (1, ⟨0⟩)]⟩

/-- An importer whose default scene references a triangle mesh and a
triangle-strip mesh. -/
def stripSceneImporter : Importer :=
  { meshCount := 2,
    mesh := fun i _ => if i == 0 then some meshTri4
            else if i == 1 then some meshStrip2 else none,
    defaultScene := some 0, scene := fun _ => some sceneBoth,
    meshName := fun _ => "m", meshAttributeName := fun _ => "" }

/-- World concatenating a triangle-strip mesh through a present default
scene. -/
def worldStripScene : World := { baseWorld with importer := stripSceneImporter }

/-- World whose converter cannot accept meshes at all (loose meshes get
skipped with a warning). -/
def skipMeshConverter : Converter :=
  { anyConverter with supportedContents := { fullContents with meshes := false } }

def worldSkipMeshes : World :=
  { baseWorld with converterPlugin := fun n =>
      if n = "AnySceneConverter" then some skipMeshConverter else none }

/-- A mesh carrying the same custom attribute id (7) twice — legal
`MeshData` (several attributes may share a name). -/
def meshDupAttr : MeshData :=
  { primitive := .triangles, indices := none, vertexCount := 3,
    attributes := [⟨.custom 7⟩, ⟨.custom 7⟩] }

/-- The original source for `meshDupAttr`, naming every custom id `dup`. -/
def origDupAttr : Importer :=
  { meshCount := 1, mesh := fun _ _ => some meshDupAttr, defaultScene := none,
    scene := fun _ => none, meshName := fun _ => "m",
    meshAttributeName := fun _ => "dup" }

/-- A mesh with a single custom attribute (id 9). -/
def meshOneAttr : MeshData :=
  { primitive := .triangles, indices := none, vertexCount := 3,
    attributes := [⟨.custom 9⟩] }

/-- The original source for `meshOneAttr`, naming id 9 `name9`. -/
def origOneAttr : Importer :=
  { meshCount := 1, mesh := fun _ _ => some meshOneAttr, defaultScene := none,
    scene := fun _ => none, meshName := fun _ => "m",
    meshAttributeName := fun _ => "name9" }

/-! ## Trace-position and per-block event lemmas -/

/-- If no event of `B` satisfies `P` and no event of `A` satisfies `Q`, then
in `A ++ B` every `P`-position lies strictly before every `Q`-position. -/
theorem pos_lt_of_append {A B : Trace} {P Q : Ev → Bool}
    (hPB : ∀ e ∈ B, P e = false) (hQA : ∀ e ∈ A, Q e = false)
    {p q : Nat} (hp : p < (A ++ B).length) (hq : q < (A ++ B).length)
    (hPp : P ((A ++ B)[p]) = true) (hQq : Q ((A ++ B)[q]) = true) :
    p < q := by
  have hpA : p < A.length := by
    by_contra hc
    push_neg at hc
    have hmem : (A ++ B)[p] ∈ B := by
      rw [List.getElem_append_right hc]
      exact List.getElem_mem _
    rw [hPB _ hmem] at hPp
    exact Bool.false_ne_true hPp
  have hqA : A.length ≤ q := by
    by_contra hc
    push_neg at hc
    have hmem : (A ++ B)[q] ∈ A := by
      rw [List.getElem_append_left hc]
      exact List.getElem_mem _
    rw [hQA _ hmem] at hQq
    exact Bool.false_ne_true hQq
  omega

theorem genericChecks_major (a : Args) :
    ∀ e ∈ (genericChecks a).1, e.major = 0 := by
  unfold genericChecks
  split_ifs <;> simp [Ev.major]

theorem setupImporter_major (a : Args) (w : World) :
    ∀ e ∈ (setupImporter a w).1, e.major = 1 := by
  unfold setupImporter
  split_ifs <;> simp [Ev.major]

theorem importConcatLoop_major (imp : Importer) (is : List Nat) :
    ∀ e ∈ (importConcatLoop imp is).1, e.major = 2 := by
  induction is with
  | nil => simp [importConcatLoop]
  | cons i rest ih =>
    unfold importConcatLoop
    split
    · simp [Ev.major]
    · split
      · rename_i t st heq
        simp only [List.forall_mem_cons]
        refine ⟨rfl, fun e he => ih e ?_⟩
        rw [heq]; exact he
      · rename_i t ms heq
        simp only [List.forall_mem_cons]
        refine ⟨rfl, fun e he => ih e ?_⟩
        rw [heq]; exact he

theorem concatenateMeshesBranch_major (imp : Importer) :
    ∀ e ∈ (concatenateMeshesBranch imp).1, e.major = 2 := by
  intro e he
  unfold concatenateMeshesBranch at he
  split at he
  · simp at he
  · split at he
    · rename_i heq
      apply importConcatLoop_major imp (List.range imp.meshCount)
      rw [heq]; exact he
    · rename_i t ms heq
      have ht : ∀ e ∈ t, e.major = 2 := by
        intro e' he'
        apply importConcatLoop_major imp (List.range imp.meshCount)
        rw [heq]; exact he'
      split at he
      · split at he
        · simp at he
          rcases he with he | he
          · exact ht e he
          · subst he; rfl
        · simp at he
          rcases he with he | he | he
          · exact ht e he
          · subst he; rfl
          · subst he; rfl
      · simp at he
        rcases he with he | he
        · exact ht e he
        · subst he; rfl

theorem singleImportBranch_major (a : Args) (imp : Importer) :
    ∀ e ∈ (singleImportBranch a imp).1, e.major = 2 := by
  intro e he
  unfold singleImportBranch at he
  split at he <;> simp at he <;> subst he <;> rfl

theorem filterBlock_major (a : Args) (w : World) (m : MeshData) :
    ∀ e ∈ (filterBlock a w m).1, e.major = 2 := by
  intro e he
  unfold filterBlock at he
  split at he
  · simp at he
  · split at he
    · simp at he
    · simp at he; subst he; rfl

theorem singleMeshStage_major (a : Args) (w : World) (imp : Importer) :
    ∀ e ∈ (singleMeshStage a w imp).1, e.major = 2 := by
  intro e he
  unfold singleMeshStage at he
  split at he
  · have hbr : ∀ e ∈ (if a.concatenateMeshes then concatenateMeshesBranch imp
        else singleImportBranch a imp).1, e.major = 2 := by
      split
      · exact concatenateMeshesBranch_major imp
      · exact singleImportBranch_major a imp
    split at he
    · rename_i heq
      apply hbr; rw [heq]; exact he
    · rename_i t m' heq
      split at he <;> rename_i t2 heq2 <;> simp at he <;>
        rcases he with he | he
      · apply hbr; rw [heq]; exact he
      · apply filterBlock_major a w m'; rw [heq2]; exact he
      · apply hbr; rw [heq]; exact he
      · apply filterBlock_major a w m'; rw [heq2]; exact he
  · simp at he

theorem meshConvFold_major (w : World) (convs : List String) :
    ∀ i j m, ∀ e ∈ (meshConvFold w i j convs m).1, e.major = 3 := by
  induction convs with
  | nil => intro i j m; simp [meshConvFold]
  | cons nmc rest ih =>
    intro i j m
    unfold meshConvFold
    split
    · simp [Ev.major]
    · split
      · simp [Ev.major]
      · split
        · simp [Ev.major]
        · rename_i m2 heq2
          split
          rename_i t r heq
          simp only [List.forall_mem_cons]
          refine ⟨rfl, rfl, fun e he => ih i (j+1) m2 e ?_⟩
          rw [heq]; exact he

theorem dedupBlock_major (a : Args) (w : World) (i : Nat) (m : MeshData) :
    ∀ e ∈ (dedupBlock a w i m).1, e.major = 3 := by
  unfold dedupBlock
  split
  · simp [Ev.major]
  · split <;> simp [Ev.major]

theorem preprocessOne_major (a : Args) (w : World) (i : Nat) (m : MeshData) :
    ∀ e ∈ (preprocessOne a w i m).1, e.major = 3 := by
  unfold preprocessOne
  split
  rename_i t1 m1 heq1
  split
  rename_i t2 r heq2
  intro e he
  rcases List.mem_append.1 he with h | h
  · exact dedupBlock_major a w i m e (heq1 ▸ h)
  · exact meshConvFold_major w a.meshConverters i 0 m1 e (heq2 ▸ h)

theorem preprocessLoop_major (a : Args) (w : World) (imp : Importer)
    (is : List Nat) :
    ∀ e ∈ (preprocessLoop a w imp is).1, e.major = 3 := by
  induction is with
  | nil => simp [preprocessLoop]
  | cons i rest ih =>
    unfold preprocessLoop
    split
    · simp [Ev.major]
    · rename_i m heqm
      split
      · rename_i t1 st heq1
        simp only [List.forall_mem_cons]
        refine ⟨rfl, fun e he => preprocessOne_major a w i m e ?_⟩
        rw [heq1]; exact he
      · rename_i t1 m2 heq1
        split <;> rename_i t2 r2 heq2 <;>
          simp only [List.forall_mem_cons] <;>
          refine ⟨rfl, fun e he => ?_⟩ <;>
          rcases List.mem_append.1 he with h | h
        · exact preprocessOne_major a w i m e (heq1 ▸ h)
        · exact ih e (heq2 ▸ h)
        · exact preprocessOne_major a w i m e (heq1 ▸ h)
        · exact ih e (heq2 ▸ h)

theorem preprocessMeshes_major (a : Args) (w : World) (imp : Importer) :
    ∀ e ∈ (preprocessMeshes a w imp).1, e.major = 3 := by
  unfold preprocessMeshes
  split
  · exact preprocessLoop_major a w imp (List.range imp.meshCount)
  · simp

theorem attrPropagate_major (imp : Importer) (idx k : Nat) (m : MeshData) :
    ∀ e ∈ attrPropagate imp idx k m, e.major = 4 := by
  intro e he
  unfold attrPropagate at he
  rcases List.mem_filterMap.1 he with ⟨ad, _, had⟩
  rcases hn : ad.name with n | id <;> rw [hn] at had
  · simp at had
  · by_cases hne : imp.meshAttributeName id ≠ "" <;> simp [hne] at had
    subst had; rfl

theorem addMeshesLoop_major (c : Converter) (imp : Importer)
    (contents : SceneContents) (idx : Nat) (ms : List MeshData) :
    ∀ k, ∀ e ∈ (addMeshesLoop c imp contents idx k ms).1, e.major = 4 := by
  induction ms with
  | nil => intro k; simp [addMeshesLoop]
  | cons m rest ih =>
    intro k
    unfold addMeshesLoop
    split
    · split
      rename_i t r heq
      intro e he
      rcases List.mem_append.1 he with h | h
      · exact attrPropagate_major imp idx k m e h
      · rcases List.mem_cons.1 h with h' | h'
        · subst h'; rfl
        · apply ih (k+1) e; rw [heq]; exact h'
    · intro e he
      rcases List.mem_append.1 he with h | h
      · exact attrPropagate_major imp idx k m e h
      · simp at h; subst h; rfl

theorem beginStage_major (c : Converter) (idx : Nat) (isLast : Bool) :
    ∀ e ∈ (beginStage c idx isLast).1, e.major = 4 := by
  unfold beginStage
  split_ifs <;> simp [Ev.major]

theorem looseMeshStep_major (c : Converter) (imp : Importer) (idx : Nat)
    (contents : SceneContents) (ms : List MeshData) :
    ∀ e ∈ (looseMeshStep c imp idx contents ms).1, e.major = 4 := by
  unfold looseMeshStep
  split_ifs
  · simp
  · simp [Ev.major]
  · split
    · rename_i t st heq
      intro e he
      exact addMeshesLoop_major c imp contents idx ms 0 e (by rw [heq]; exact he)
    · rename_i t heq
      intro e he
      exact addMeshesLoop_major c imp contents idx ms 0 e (by rw [heq]; exact he)

theorem convChainGo_major (w : World) (names : List String) :
    ∀ idx imp ms, ∀ e ∈ (convChainGo w idx names imp ms).1, e.major = 4 := by
  induction names with
  | nil => intro idx imp ms; simp [convChainGo]
  | cons nm rest ih =>
    intro idx imp ms
    unfold convChainGo
    split
    · simp [Ev.major]
    · rename_i c heqc
      split
      · rename_i tB st heqB
        intro e he
        rcases List.mem_cons.1 he with h | h
        · subst h; rfl
        · apply beginStage_major c idx _ e; rw [heqB]; exact h
      · rename_i tB heqB
        have htB : ∀ e ∈ tB, e.major = 4 := by
          intro e he; apply beginStage_major c idx _ e; rw [heqB]; exact he
        split
        · rename_i tM x y st heqM
          intro e he
          rcases List.mem_cons.1 he with h | h
          · subst h; rfl
          · rcases List.mem_append.1 h with h' | h'
            · exact htB e h'
            · apply looseMeshStep_major c imp idx fullContents ms e
              rw [heqM]; exact h'
        · rename_i tM contents2 ms2 heqM
          have htM : ∀ e ∈ tM, e.major = 4 := by
            intro e he
            apply looseMeshStep_major c imp idx fullContents ms e
            rw [heqM]; exact he
          split_ifs
          · intro e he
            rcases List.mem_cons.1 he with h | h
            · subst h; rfl
            · rcases List.mem_append.1 h with h' | h'
              · rcases List.mem_append.1 h' with h2 | h2
                · exact htB e h2
                · exact htM e h2
              · simp at h'; subst h'; rfl
          · intro e he
            rcases List.mem_cons.1 he with h | h
            · subst h; rfl
            · rcases List.mem_append.1 h with h' | h'
              · rcases List.mem_append.1 h' with h2 | h2
                · exact htB e h2
                · exact htM e h2
              · simp at h'
                rcases h' with h' | h' <;> subst h' <;> rfl
          · intro e he
            rcases List.mem_cons.1 he with h | h
            · subst h; rfl
            · rcases List.mem_append.1 h with h' | h'
              · rcases List.mem_append.1 h' with h2 | h2
                · exact htB e h2
                · exact htM e h2
              · simp at h'
                rcases h' with h' | h' <;> subst h' <;> rfl
          · rcases hE : c.endResult with _ | imp2
            · dsimp only
              intro e he
              rcases List.mem_cons.1 he with h | h
              · subst h; rfl
              · rcases List.mem_append.1 h with h' | h'
                · rcases List.mem_append.1 h' with h2 | h2
                  · exact htB e h2
                  · exact htM e h2
                · simp at h'; subst h'; rfl
            · dsimp only
              intro e he
              rcases List.mem_cons.1 he with h | h
              · subst h; rfl
              · rcases List.mem_append.1 h with h' | h'
                · rcases List.mem_append.1 h' with h2 | h2
                  · rcases List.mem_append.1 h2 with h3 | h3
                    · exact htB e h3
                    · exact htM e h3
                  · simp at h2; subst h2; rfl
                · exact ih (idx+1) imp2 ms2 e h'

/-- Master membership lemma: a predicate holding on every event each block
can emit holds on every event of the whole run's trace. -/
theorem run_trace_mem {P : Ev → Prop} (a : Args) (w : World)
    (h0 : ∀ e ∈ (genericChecks a).1, P e)
    (h1 : ∀ e ∈ (setupImporter a w).1, P e)
    (h2 : ∀ imp, ∀ e ∈ (singleMeshStage a w imp).1, P e)
    (h3 : ∀ imp, ∀ e ∈ (preprocessMeshes a w imp).1, P e)
    (h4 : ∀ idx names imp ms, ∀ e ∈ (convChainGo w idx names imp ms).1, P e) :
    ∀ e ∈ (run a w).1, P e := by
  intro e he
  unfold run at he
  split at he
  · rename_i t0 st heq0
    exact h0 e (by rw [heq0]; exact he)
  · rename_i t0 heq0
    have ht0 : ∀ e ∈ t0, P e := fun e h => h0 e (by rw [heq0]; exact h)
    split at he
    · rename_i t1 st heq1
      rcases List.mem_append.1 he with h | h
      · exact ht0 e h
      · exact h1 e (by rw [heq1]; exact h)
    · rename_i t1 u heq1
      have ht1 : ∀ e ∈ t1, P e := fun e h => h1 e (by rw [heq1]; exact h)
      split at he
      · rename_i t2 st heq2
        rcases List.mem_append.1 he with h | h
        · rcases List.mem_append.1 h with h' | h'
          · exact ht0 e h'
          · exact ht1 e h'
        · exact h2 _ e (by rw [heq2]; exact h)
      · rename_i t2 imp2 heq2
        have ht2 : ∀ e ∈ t2, P e := fun e h => h2 _ e (by rw [heq2]; exact h)
        split at he
        · rename_i t3 st heq3
          rcases List.mem_append.1 he with h | h
          · rcases List.mem_append.1 h with h' | h'
            · rcases List.mem_append.1 h' with h'' | h''
              · exact ht0 e h''
              · exact ht1 e h''
            · exact ht2 e h'
          · exact h3 _ e (by rw [heq3]; exact h)
        · rename_i t3 ms heq3
          have ht3 : ∀ e ∈ t3, P e := fun e h => h3 _ e (by rw [heq3]; exact h)
          split at he
          rename_i t4 st heq4
          rcases List.mem_append.1 he with h | h
          · rcases List.mem_append.1 h with h' | h'
            · rcases List.mem_append.1 h' with h'' | h''
              · rcases List.mem_append.1 h'' with h3m | h3m
                · exact ht0 e h3m
                · exact ht1 e h3m
              · exact ht2 e h''
            · exact ht3 e h'
          · exact h4 _ _ _ _ e (by rw [heq4]; exact h)

/-- The run's trace always decomposes into a prefix of events from the
option-check / setup / single-mesh phases (major ≤ 2) followed by events
from the preprocessing and converter-chain phases (major ≥ 3). -/
theorem run_split (a : Args) (w : World) :
    ∃ A B, (run a w).1 = A ++ B ∧ (∀ e ∈ A, e.major ≤ 2)
      ∧ (∀ e ∈ B, 3 ≤ e.major) := by
  unfold run
  split
  · rename_i t0 st heq0
    refine ⟨t0, [], (List.append_nil t0).symm, fun e h => ?_, by simp⟩
    have := genericChecks_major a e (by rw [heq0]; exact h)
    omega
  · rename_i t0 heq0
    have ht0 : ∀ e ∈ t0, e.major ≤ 2 := fun e h => by
      have := genericChecks_major a e (by rw [heq0]; exact h); omega
    split
    · rename_i t1 st heq1
      refine ⟨t0 ++ t1, [], (List.append_nil _).symm, fun e h => ?_, by simp⟩
      rcases List.mem_append.1 h with h' | h'
      · exact ht0 e h'
      · have := setupImporter_major a w e (by rw [heq1]; exact h'); omega
    · rename_i t1 u heq1
      have ht1 : ∀ e ∈ t1, e.major ≤ 2 := fun e h => by
        have := setupImporter_major a w e (by rw [heq1]; exact h); omega
      split
      · rename_i t2 st heq2
        refine ⟨t0 ++ t1 ++ t2, [], (List.append_nil _).symm, fun e h => ?_,
          by simp⟩
        rcases List.mem_append.1 h with h' | h'
        · rcases List.mem_append.1 h' with h'' | h''
          · exact ht0 e h''
          · exact ht1 e h''
        · have := singleMeshStage_major a w _ e (by rw [heq2]; exact h'); omega
      · rename_i t2 imp2 heq2
        have ht2 : ∀ e ∈ t2, e.major ≤ 2 := fun e h => by
          have := singleMeshStage_major a w _ e (by rw [heq2]; exact h); omega
        have hA : ∀ e ∈ t0 ++ t1 ++ t2, e.major ≤ 2 := by
          intro e h
          rcases List.mem_append.1 h with h' | h'
          · rcases List.mem_append.1 h' with h'' | h''
            · exact ht0 e h''
            · exact ht1 e h''
          · exact ht2 e h'
        split
        · rename_i t3 st heq3
          refine ⟨t0 ++ t1 ++ t2, t3, rfl, hA, fun e h => ?_⟩
          have := preprocessMeshes_major a w _ e (by rw [heq3]; exact h); omega
        · rename_i t3 ms heq3
          have ht3 : ∀ e ∈ t3, 3 ≤ e.major := fun e h => by
            have := preprocessMeshes_major a w _ e (by rw [heq3]; exact h); omega
          split
          rename_i t4 st heq4
          refine ⟨t0 ++ t1 ++ t2, t3 ++ t4,
            by simp only [List.append_assoc], hA, fun e h => ?_⟩
          rcases List.mem_append.1 h with h' | h'
          · exact ht3 e h'
          · have := convChainGo_major w _ _ _ _ e (by rw [heq4]; exact h'); omega

/-- The mesh-converter chain never performs duplicate removal. -/
theorem meshConvFold_no_dedup (w : World) (convs : List String) :
    ∀ i j m, ∀ e ∈ (meshConvFold w i j convs m).1,
      e.isDedupExactEv = false ∧ e.isDedupFuzzyEv = false := by
  induction convs with
  | nil => intro i j m; simp [meshConvFold]
  | cons nmc rest ih =>
    intro i j m
    unfold meshConvFold
    split
    · simp [Ev.isDedupExactEv, Ev.isDedupFuzzyEv]
    · split
      · simp [Ev.isDedupExactEv, Ev.isDedupFuzzyEv]
      · split
        · simp [Ev.isDedupExactEv, Ev.isDedupFuzzyEv]
        · rename_i m2 heq2
          split
          rename_i t r heq
          simp only [List.forall_mem_cons]
          refine ⟨⟨rfl, rfl⟩, ⟨rfl, rfl⟩, fun e he => ih i (j+1) m2 e ?_⟩
          rw [heq]; exact he

/-- When the fuzzy epsilon option is present, the duplicate-removal block
only ever performs fuzzy removal. -/
theorem dedupBlock_noExact (a : Args) (w : World) (i : Nat) (m : MeshData)
    (hf : a.removeDuplicateVerticesFuzzy.isSome = true) :
    ∀ e ∈ (dedupBlock a w i m).1, e.isDedupExactEv = false := by
  unfold dedupBlock
  split
  · simp [Ev.isDedupExactEv]
  · rename_i heq
    rw [heq] at hf
    simp at hf

/-- When the fuzzy epsilon option is absent, the duplicate-removal block
only ever performs exact removal. -/
theorem dedupBlock_noFuzzy (a : Args) (w : World) (i : Nat) (m : MeshData)
    (hf : a.removeDuplicateVerticesFuzzy = none) :
    ∀ e ∈ (dedupBlock a w i m).1, e.isDedupFuzzyEv = false := by
  unfold dedupBlock
  split
  · rename_i heq
    rw [heq] at hf
    simp at hf
  · split <;> simp [Ev.isDedupFuzzyEv]

theorem preprocessOne_dedup_mode (a : Args) (w : World) (i : Nat)
    (m : MeshData) :
    ∀ e ∈ (preprocessOne a w i m).1,
      (a.removeDuplicateVerticesFuzzy.isSome = true →
        e.isDedupExactEv = false)
      ∧ (a.removeDuplicateVerticesFuzzy = none →
        e.isDedupFuzzyEv = false) := by
  unfold preprocessOne
  split
  rename_i t1 m1 heq1
  split
  rename_i t2 r heq2
  intro e he
  rcases List.mem_append.1 he with h | h
  · constructor
    · intro hf
      exact dedupBlock_noExact a w i m hf e (by rw [heq1]; exact h)
    · intro hf
      exact dedupBlock_noFuzzy a w i m hf e (by rw [heq1]; exact h)
  · have := meshConvFold_no_dedup w a.meshConverters i 0 m1 e
      (by rw [heq2]; exact h)
    exact ⟨fun _ => this.1, fun _ => this.2⟩

theorem preprocessLoop_dedup_mode (a : Args) (w : World) (imp : Importer)
    (is : List Nat) :
    ∀ e ∈ (preprocessLoop a w imp is).1,
      (a.removeDuplicateVerticesFuzzy.isSome = true →
        e.isDedupExactEv = false)
      ∧ (a.removeDuplicateVerticesFuzzy = none →
        e.isDedupFuzzyEv = false) := by
  induction is with
  | nil => simp [preprocessLoop]
  | cons i rest ih =>
    unfold preprocessLoop
    split
    · simp [Ev.isDedupExactEv, Ev.isDedupFuzzyEv]
    · rename_i m heqm
      split
      · rename_i t1 st heq1
        intro e he
        rcases List.mem_cons.1 he with h | h
        · subst h; simp [Ev.isDedupExactEv, Ev.isDedupFuzzyEv]
        · exact preprocessOne_dedup_mode a w i m e (by rw [heq1]; exact h)
      · rename_i t1 m2 heq1
        split <;> rename_i t2 r2 heq2 <;> intro e he <;>
          rcases List.mem_cons.1 he with h | h
        · subst h; simp [Ev.isDedupExactEv, Ev.isDedupFuzzyEv]
        · rcases List.mem_append.1 h with h' | h'
          · exact preprocessOne_dedup_mode a w i m e (by rw [heq1]; exact h')
          · exact ih e (by rw [heq2]; exact h')
        · subst h; simp [Ev.isDedupExactEv, Ev.isDedupFuzzyEv]
        · rcases List.mem_append.1 h with h' | h'
          · exact preprocessOne_dedup_mode a w i m e (by rw [heq1]; exact h')
          · exact ih e (by rw [heq2]; exact h')

theorem preprocessMeshes_dedup_mode (a : Args) (w : World) (imp : Importer) :
    ∀ e ∈ (preprocessMeshes a w imp).1,
      (a.removeDuplicateVerticesFuzzy.isSome = true →
        e.isDedupExactEv = false)
      ∧ (a.removeDuplicateVerticesFuzzy = none →
        e.isDedupFuzzyEv = false) := by
  unfold preprocessMeshes
  split
  · exact preprocessLoop_dedup_mode a w imp (List.range imp.meshCount)
  · simp

theorem attrPropagate_events (imp : Importer) (idx k : Nat) (m : MeshData) :
    ∀ e ∈ attrPropagate imp idx k m, ∃ id, e = .setAttrName idx k id := by
  intro e he
  rcases List.mem_filterMap.1 he with ⟨ad, _, had⟩
  rcases hn : ad.name with n | id <;> rw [hn] at had
  · simp at had
  · by_cases hne : imp.meshAttributeName id ≠ "" <;> simp [hne] at had
    exact ⟨id, had.symm⟩

theorem addMeshesLoop_events (c : Converter) (imp : Importer)
    (contents : SceneContents) (idx : Nat) (ms : List MeshData) :
    ∀ k, ∀ e ∈ (addMeshesLoop c imp contents idx k ms).1,
      (∃ k' id, e = .setAttrName idx k' id) ∨ (∃ k', e = .addMesh idx k') := by
  induction ms with
  | nil => intro k; simp [addMeshesLoop]
  | cons m rest ih =>
    intro k
    unfold addMeshesLoop
    split
    · split
      rename_i t r heq
      intro e he
      rcases List.mem_append.1 he with h | h
      · rcases attrPropagate_events imp idx k m e h with ⟨id, h'⟩
        exact .inl ⟨k, id, h'⟩
      · rcases List.mem_cons.1 h with h' | h'
        · exact .inr ⟨k, h'⟩
        · apply ih (k+1) e; rw [heq]; exact h'
    · intro e he
      rcases List.mem_append.1 he with h | h
      · rcases attrPropagate_events imp idx k m e h with ⟨id, h'⟩
        exact .inl ⟨k, id, h'⟩
      · simp at h
        exact .inr ⟨k, h⟩

theorem beginStage_events (c : Converter) (idx : Nat) (isLast : Bool) :
    ∀ e ∈ (beginStage c idx isLast).1,
      e = .beginFile idx ∨ e = .featureMismatch idx ∨ e = .beginConv idx := by
  unfold beginStage
  split_ifs <;> simp

theorem looseMeshStep_events (c : Converter) (imp : Importer) (idx : Nat)
    (contents : SceneContents) (ms : List MeshData) :
    ∀ e ∈ (looseMeshStep c imp idx contents ms).1,
      e = .skipMeshes idx ∨ (∃ k id, e = .setAttrName idx k id)
        ∨ (∃ k, e = .addMesh idx k) := by
  unfold looseMeshStep
  split_ifs
  · simp
  · simp
  · split
    · rename_i t st heq
      intro e he
      exact .inr (addMeshesLoop_events c imp contents idx ms 0 e
        (by rw [heq]; exact he))
    · rename_i t heq
      intro e he
      exact .inr (addMeshesLoop_events c imp contents idx ms 0 e
        (by rw [heq]; exact he))

/-- The mask coming out of the loose-mesh block is the incoming mask with at
most the `Meshes` bit cleared. -/
theorem looseMeshStep_contents (c : Converter) (imp : Importer) (idx : Nat)
    (contents : SceneContents) (ms : List MeshData) :
    (looseMeshStep c imp idx contents ms).2.1 = contents
      ∨ (looseMeshStep c imp idx contents ms).2.1 = contents.clearMeshes := by
  unfold looseMeshStep
  split_ifs
  · exact .inl rfl
  · exact .inr rfl
  · split
    · exact .inl rfl
    · exact .inr rfl

/-- On a non-empty loose mesh array that the stage does not fail on, the
block always clears the `Meshes` bit and empties the array — also on the
skip-with-warning path. -/
theorem looseMeshStep_consumes (c : Converter) (imp : Importer) (idx : Nat)
    (contents : SceneContents) (ms : List MeshData) (t : Trace)
    (c2 : SceneContents) (ms2 : List MeshData)
    (h : ms ≠ [])
    (heq : looseMeshStep c imp idx contents ms = (t, c2, ms2, none)) :
    c2 = contents.clearMeshes ∧ ms2 = [] := by
  unfold looseMeshStep at heq
  rw [if_neg (by simpa using h)] at heq
  split_ifs at heq
  · exact ⟨(Prod.ext_iff.1 (Prod.ext_iff.1 heq).2).1.symm,
      (Prod.ext_iff.1 (Prod.ext_iff.1 (Prod.ext_iff.1 heq).2).2).1.symm⟩
  · split at heq
    · simp at heq
    · exact ⟨(Prod.ext_iff.1 (Prod.ext_iff.1 heq).2).1.symm,
        (Prod.ext_iff.1 (Prod.ext_iff.1 (Prod.ext_iff.1 heq).2).2).1.symm⟩

/-- Every `addContents` mask the chain ever passes to
`addSupportedImporterContents` is the freshly initialized full mask with at
most the `Meshes` bit cleared. -/
theorem convChainGo_addContents (w : World) (names : List String) :
    ∀ idx imp ms i c', Ev.addContents i c' ∈ (convChainGo w idx names imp ms).1 →
      c' = fullContents ∨ c' = fullContents.clearMeshes := by
  induction names with
  | nil => intro idx imp ms i c'; simp [convChainGo]
  | cons nm rest ih =>
    intro idx imp ms i c' he
    unfold convChainGo at he
    split at he
    · simp at he
    · rename_i c heqc
      split at he
      · rename_i tB st heqB
        rcases List.mem_cons.1 he with h | h
        · simp at h
        · rcases beginStage_events c idx _ _ (by rw [heqB]; exact h) with
            h' | h' | h' <;> simp at h'
      · rename_i tB heqB
        have hB : Ev.addContents i c' ∉ tB := by
          intro h
          rcases beginStage_events c idx _ _ (by rw [heqB]; exact h) with
            h' | h' | h' <;> simp at h'
        split at he
        · rename_i tM x y st heqM
          rcases List.mem_cons.1 he with h | h
          · simp at h
          · rcases List.mem_append.1 h with h' | h'
            · exact absurd h' hB
            · rcases looseMeshStep_events c imp idx fullContents ms _
                  (by rw [heqM]; exact h') with h'' | h'' | h''
              · simp at h''
              · rcases h'' with ⟨k, id, h''⟩; simp at h''
              · rcases h'' with ⟨k, h''⟩; simp at h''
        · rename_i tM contents2 ms2 heqM
          have hM : Ev.addContents i c' ∉ tM := by
            intro h
            rcases looseMeshStep_events c imp idx fullContents ms _
                (by rw [heqM]; exact h) with h'' | h'' | h''
            · simp at h''
            · rcases h'' with ⟨k, id, h''⟩; simp at h''
            · rcases h'' with ⟨k, h''⟩; simp at h''
          have hC2 : contents2 = fullContents
              ∨ contents2 = fullContents.clearMeshes := by
            have := looseMeshStep_contents c imp idx fullContents ms
            rw [heqM] at this
            exact this
          split_ifs at he
          · rcases List.mem_cons.1 he with h | h
            · simp at h
            · rcases List.mem_append.1 h with h' | h'
              · rcases List.mem_append.1 h' with h2 | h2
                · exact absurd h2 hB
                · exact absurd h2 hM
              · simp at h'
                rw [h'.2]; exact hC2
          · rcases List.mem_cons.1 he with h | h
            · simp at h
            · rcases List.mem_append.1 h with h' | h'
              · rcases List.mem_append.1 h' with h2 | h2
                · exact absurd h2 hB
                · exact absurd h2 hM
              · rcases List.mem_cons.1 h' with h2 | h2
                · injection h2 with h3 h4
                  rw [h4]; exact hC2
                · simp at h2
          · rcases List.mem_cons.1 he with h | h
            · simp at h
            · rcases List.mem_append.1 h with h' | h'
              · rcases List.mem_append.1 h' with h2 | h2
                · exact absurd h2 hB
                · exact absurd h2 hM
              · rcases List.mem_cons.1 h' with h2 | h2
                · injection h2 with h3 h4
                  rw [h4]; exact hC2
                · simp at h2
          · rcases hE : c.endResult with _ | imp2 <;> rw [hE] at he <;>
              dsimp only at he
            · rcases List.mem_cons.1 he with h | h
              · simp at h
              · rcases List.mem_append.1 h with h' | h'
                · rcases List.mem_append.1 h' with h2 | h2
                  · exact absurd h2 hB
                  · exact absurd h2 hM
                · simp at h'
                  rw [h'.2]; exact hC2
            · rcases List.mem_cons.1 he with h | h
              · simp at h
              · rcases List.mem_append.1 h with h' | h'
                · rcases List.mem_append.1 h' with h2 | h2
                  · rcases List.mem_append.1 h2 with h3 | h3
                    · exact absurd h3 hB
                    · exact absurd h3 hM
                  · simp at h2
                    rw [h2.2]; exact hC2
                · exact ih (idx+1) imp2 ms2 i c' h'

/-- Chain events carry stage indices at or above the driver's current
index: stages never touch an earlier stage's events. -/
theorem convChainGo_stage_ge (w : World) (names : List String) :
    ∀ idx imp ms, ∀ e ∈ (convChainGo w idx names imp ms).1,
      ∀ s, e.stageIdx = some s → idx ≤ s := by
  induction names with
  | nil => intro idx imp ms; simp [convChainGo]
  | cons nm rest ih =>
    intro idx imp ms e he s hs
    have hstage : ∀ e' : Ev,
        (e' = .loadConverterPlugin idx ∨ e' = .beginFile idx
          ∨ e' = .featureMismatch idx ∨ e' = .beginConv idx
          ∨ e' = .skipMeshes idx ∨ (∃ k id, e' = .setAttrName idx k id)
          ∨ (∃ k, e' = .addMesh idx k) ∨ (∃ cc, e' = .addContents idx cc)
          ∨ e' = .endFile idx) →
        ∀ s', e'.stageIdx = some s' → idx ≤ s' := by
      intro e' h' s' hs'
      rcases h' with h' | h' | h' | h' | h' | ⟨k, id, h'⟩ | ⟨k, h'⟩
        | ⟨cc, h'⟩ | h' <;> subst h' <;>
        simp [Ev.stageIdx] at hs' <;> omega
    unfold convChainGo at he
    split at he
    · simp at he; subst he
      exact hstage _ (.inl rfl) s hs
    · rename_i c heqc
      split at he
      · rename_i tB st heqB
        rcases List.mem_cons.1 he with h | h
        · subst h; exact hstage _ (.inl rfl) s hs
        · rcases beginStage_events c idx _ _ (by rw [heqB]; exact h) with
            h' | h' | h' <;> subst h'
          · exact hstage _ (.inr (.inl rfl)) s hs
          · exact hstage _ (.inr (.inr (.inl rfl))) s hs
          · exact hstage _ (.inr (.inr (.inr (.inl rfl)))) s hs
      · rename_i tB heqB
        have hB : ∀ e' ∈ tB, ∀ s', e'.stageIdx = some s' → idx ≤ s' := by
          intro e' h' s' hs'
          rcases beginStage_events c idx _ _ (by rw [heqB]; exact h') with
            h2 | h2 | h2 <;> subst h2 <;> simp [Ev.stageIdx] at hs' <;> omega
        have hLoose : ∀ (tM : Trace) (x : SceneContents) (y : List MeshData)
            (z : Option ExitStatus),
            looseMeshStep c imp idx fullContents ms = (tM, x, y, z) →
            ∀ e' ∈ tM, ∀ s', e'.stageIdx = some s' → idx ≤ s' := by
          intro tM x y z heqM e' h' s' hs'
          rcases looseMeshStep_events c imp idx fullContents ms e'
              (by rw [heqM]; exact h') with h2 | ⟨k, id, h2⟩ | ⟨k, h2⟩ <;>
            subst h2 <;> simp [Ev.stageIdx] at hs' <;> omega
        split at he
        · rename_i tM x y st heqM
          rcases List.mem_cons.1 he with h | h
          · subst h; exact hstage _ (.inl rfl) s hs
          · rcases List.mem_append.1 h with h' | h'
            · exact hB e h' s hs
            · exact hLoose tM x y _ heqM e h' s hs
        · rename_i tM contents2 ms2 heqM
          split_ifs at he
          · rcases List.mem_cons.1 he with h | h
            · subst h; exact hstage _ (.inl rfl) s hs
            · rcases List.mem_append.1 h with h' | h'
              · rcases List.mem_append.1 h' with h2 | h2
                · exact hB e h2 s hs
                · exact hLoose tM contents2 ms2 _ heqM e h2 s hs
              · simp at h'; subst h'; simp [Ev.stageIdx] at hs; omega
          · rcases List.mem_cons.1 he with h | h
            · subst h; exact hstage _ (.inl rfl) s hs
            · rcases List.mem_append.1 h with h' | h'
              · rcases List.mem_append.1 h' with h2 | h2
                · exact hB e h2 s hs
                · exact hLoose tM contents2 ms2 _ heqM e h2 s hs
              · rcases List.mem_cons.1 h' with h2 | h2
                · subst h2; simp [Ev.stageIdx] at hs; omega
                · simp at h2; subst h2; simp [Ev.stageIdx] at hs; omega
          · rcases List.mem_cons.1 he with h | h
            · subst h; exact hstage _ (.inl rfl) s hs
            · rcases List.mem_append.1 h with h' | h'
              · rcases List.mem_append.1 h' with h2 | h2
                · exact hB e h2 s hs
                · exact hLoose tM contents2 ms2 _ heqM e h2 s hs
              · rcases List.mem_cons.1 h' with h2 | h2
                · subst h2; simp [Ev.stageIdx] at hs; omega
                · simp at h2; subst h2; simp [Ev.stageIdx] at hs; omega
          · rcases hE : c.endResult with _ | imp2 <;> rw [hE] at he <;>
              dsimp only at he
            · rcases List.mem_cons.1 he with h | h
              · subst h; exact hstage _ (.inl rfl) s hs
              · rcases List.mem_append.1 h with h' | h'
                · rcases List.mem_append.1 h' with h2 | h2
                  · exact hB e h2 s hs
                  · exact hLoose tM contents2 ms2 _ heqM e h2 s hs
                · simp at h'; subst h'; simp [Ev.stageIdx] at hs; omega
            · rcases List.mem_cons.1 he with h | h
              · subst h; exact hstage _ (.inl rfl) s hs
              · rcases List.mem_append.1 h with h' | h'
                · rcases List.mem_append.1 h' with h2 | h2
                  · rcases List.mem_append.1 h2 with h3 | h3
                    · exact hB e h3 s hs
                    · exact hLoose tM contents2 ms2 _ heqM e h3 s hs
                  · simp at h2; subst h2; simp [Ev.stageIdx] at hs; omega
                · have := ih (idx+1) imp2 ms2 e h' s hs
                  omega

/-- Shape of the events a chain started with an empty loose mesh array can
emit: no loose-mesh skips or adds ever happen, and every content-addition
uses the full mask. -/
theorem convChainGo_empty_events (w : World) (names : List String) :
    ∀ idx imp, ∀ e ∈ (convChainGo w idx names imp []).1,
      (∃ i, e = .loadConverterPlugin i) ∨ (∃ i, e = .beginFile i)
      ∨ (∃ i, e = .featureMismatch i) ∨ (∃ i, e = .beginConv i)
      ∨ (∃ i, e = .addContents i fullContents) ∨ (∃ i, e = .endFile i) := by
  induction names with
  | nil => intro idx imp; simp [convChainGo]
  | cons nm rest ih =>
    intro idx imp e he
    unfold convChainGo at he
    split at he
    · simp at he; subst he; exact .inl ⟨idx, rfl⟩
    · rename_i c heqc
      split at he
      · rename_i tB st heqB
        rcases List.mem_cons.1 he with h | h
        · subst h; exact .inl ⟨idx, rfl⟩
        · rcases beginStage_events c idx _ _ (by rw [heqB]; exact h) with
            h' | h' | h' <;> subst h'
          · exact .inr (.inl ⟨idx, rfl⟩)
          · exact .inr (.inr (.inl ⟨idx, rfl⟩))
          · exact .inr (.inr (.inr (.inl ⟨idx, rfl⟩)))
      · rename_i tB heqB
        have hBe : ∀ e' ∈ tB,
            (∃ i, e' = Ev.loadConverterPlugin i) ∨ (∃ i, e' = Ev.beginFile i)
            ∨ (∃ i, e' = Ev.featureMismatch i) ∨ (∃ i, e' = Ev.beginConv i)
            ∨ (∃ i, e' = Ev.addContents i fullContents)
            ∨ (∃ i, e' = Ev.endFile i) := by
          intro e' h'
          rcases beginStage_events c idx _ _ (by rw [heqB]; exact h') with
            h2 | h2 | h2 <;> subst h2
          · exact .inr (.inl ⟨idx, rfl⟩)
          · exact .inr (.inr (.inl ⟨idx, rfl⟩))
          · exact .inr (.inr (.inr (.inl ⟨idx, rfl⟩)))
        split at he
        · rename_i tM x y st heqM
          exfalso
          simp [looseMeshStep] at heqM
        · rename_i tM contents2 ms2 heqM
          rw [show looseMeshStep c imp idx fullContents [] =
              ([], fullContents, [], none) from by simp [looseMeshStep]]
            at heqM
          obtain ⟨h1, h2, h3, -⟩ :
              ([] : Trace) = tM ∧ fullContents = contents2
                ∧ ([] : List MeshData) = ms2 ∧ True := by
            simpa [Prod.ext_iff] using heqM
          subst h1; subst h2; subst h3
          split_ifs at he
          · rcases List.mem_cons.1 he with h | h
            · subst h; exact .inl ⟨idx, rfl⟩
            · rcases List.mem_append.1 h with h' | h'
              · rcases List.mem_append.1 h' with h2 | h2
                · exact hBe e h2
                · simp at h2
              · simp at h'; subst h'
                exact .inr (.inr (.inr (.inr (.inl ⟨idx, rfl⟩))))
          · rcases List.mem_cons.1 he with h | h
            · subst h; exact .inl ⟨idx, rfl⟩
            · rcases List.mem_append.1 h with h' | h'
              · rcases List.mem_append.1 h' with h2 | h2
                · exact hBe e h2
                · simp at h2
              · rcases List.mem_cons.1 h' with h2 | h2
                · subst h2
                  exact .inr (.inr (.inr (.inr (.inl ⟨idx, rfl⟩))))
                · simp at h2; subst h2
                  exact .inr (.inr (.inr (.inr (.inr ⟨idx, rfl⟩))))
          · rcases List.mem_cons.1 he with h | h
            · subst h; exact .inl ⟨idx, rfl⟩
            · rcases List.mem_append.1 h with h' | h'
              · rcases List.mem_append.1 h' with h2 | h2
                · exact hBe e h2
                · simp at h2
              · rcases List.mem_cons.1 h' with h2 | h2
                · subst h2
                  exact .inr (.inr (.inr (.inr (.inl ⟨idx, rfl⟩))))
                · simp at h2; subst h2
                  exact .inr (.inr (.inr (.inr (.inr ⟨idx, rfl⟩))))
          · rcases hE : c.endResult with _ | imp2 <;> rw [hE] at he <;>
              dsimp only at he
            · rcases List.mem_cons.1 he with h | h
              · subst h; exact .inl ⟨idx, rfl⟩
              · rcases List.mem_append.1 h with h' | h'
                · rcases List.mem_append.1 h' with h2 | h2
                  · exact hBe e h2
                  · simp at h2
                · simp at h'; subst h'
                  exact .inr (.inr (.inr (.inr (.inl ⟨idx, rfl⟩))))
            · rcases List.mem_cons.1 he with h | h
              · subst h; exact .inl ⟨idx, rfl⟩
              · rcases List.mem_append.1 h with h' | h'
                · rcases List.mem_append.1 h' with h2 | h2
                  · rcases List.mem_append.1 h2 with h3 | h3
                    · exact hBe e h3
                    · simp at h3
                  · simp at h2; subst h2
                    exact .inr (.inr (.inr (.inr (.inl ⟨idx, rfl⟩))))
                · exact ih (idx+1) imp2 e h'

/-! ## Claim theorems -/

/-- C5: every option set containing both `--mesh` and `--concatenate-meshes`
yields the configuration error (exit 1, neither option honored), raised
before any plugin manager is constructed or any plugin loaded — the trace is
exactly the configuration-error event, with no manager-construction or
plugin-load events. -/
theorem mesh_concat_mutually_exclusive (a : Args) (w : World)
    (h1 : a.concatenateMeshes = true) (h2 : a.mesh.isSome = true) :
    run a w = ([.configError], .exit 1)
    ∧ Ev.constructManagers ∉ (run a w).1
    ∧ Ev.loadImporterPlugin ∉ (run a w).1
    ∧ (∀ i, Ev.loadConverterPlugin i ∉ (run a w).1)
    ∧ (∀ i j, Ev.loadMeshConverterPlugin i j ∉ (run a w).1) := by
  have hrun : run a w = ([.configError], .exit 1) := by
    unfold run genericChecks
    rw [h1, h2]
    simp
  refine ⟨hrun, ?_, ?_, ?_, ?_⟩ <;> rw [hrun] <;> simp

/-- Witness for C5 at a concrete option set. -/
theorem mesh_concat_mutually_exclusive_witness :
    run argsBadOption baseWorld = ([.configError], .exit 1) :=
  (mesh_concat_mutually_exclusive argsBadOption baseWorld rfl rfl).1

/-- An event that is not emitted from the preprocessing phase is neither
duplicate-removal kind. -/
theorem not_dedup_of_major {e : Ev} (h : e.major ≠ 3) :
    e.isDedupExactEv = false ∧ e.isDedupFuzzyEv = false := by
  cases e <;> first
    | exact ⟨rfl, rfl⟩
    | exact absurd rfl h

/-- Whole-run duplicate-removal mode discipline: with the fuzzy option
present no exact removal ever runs, without it no fuzzy removal ever runs. -/
theorem run_dedup_mode (a : Args) (w : World) :
    ∀ e ∈ (run a w).1,
      (a.removeDuplicateVerticesFuzzy.isSome = true →
        e.isDedupExactEv = false)
      ∧ (a.removeDuplicateVerticesFuzzy = none →
        e.isDedupFuzzyEv = false) := by
  refine run_trace_mem
    (P := fun e =>
      (a.removeDuplicateVerticesFuzzy.isSome = true →
        e.isDedupExactEv = false)
      ∧ (a.removeDuplicateVerticesFuzzy = none →
        e.isDedupFuzzyEv = false)) a w ?_ ?_ ?_ ?_ ?_
  · intro e he
    have h := genericChecks_major a e he
    have h2 := not_dedup_of_major (e := e) (by omega)
    exact ⟨fun _ => h2.1, fun _ => h2.2⟩
  · intro e he
    have h := setupImporter_major a w e he
    have h2 := not_dedup_of_major (e := e) (by omega)
    exact ⟨fun _ => h2.1, fun _ => h2.2⟩
  · intro imp e he
    have h := singleMeshStage_major a w imp e he
    have h2 := not_dedup_of_major (e := e) (by omega)
    exact ⟨fun _ => h2.1, fun _ => h2.2⟩
  · intro imp
    exact preprocessMeshes_dedup_mode a w imp
  · intro idx names imp ms e he
    have h := convChainGo_major w names idx imp ms e he
    have h2 := not_dedup_of_major (e := e) (by omega)
    exact ⟨fun _ => h2.1, fun _ => h2.2⟩

/-- C6: exact and epsilon-fuzzy duplicate removal are mutually exclusive —
in no run are both modes ever applied to the same mesh, even when both
`--remove-duplicate-vertices` and `--remove-duplicate-vertices-fuzzy` are
supplied (the fuzzy mode then wins for every mesh). -/
theorem dedup_modes_exclusive (a : Args) (w : World) (i : Nat) :
    ((run a w).1.any (fun e => e == Ev.dedupExact i)
      && (run a w).1.any (fun e => e == Ev.dedupFuzzy i)) = false := by
  rcases hcase : a.removeDuplicateVerticesFuzzy with _ | eps
  · have hany : (run a w).1.any (fun e => e == Ev.dedupFuzzy i) = false := by
      by_contra hc
      rw [Bool.not_eq_false, List.any_eq_true] at hc
      rcases hc with ⟨e, he, hbeq⟩
      rw [beq_iff_eq] at hbeq
      subst hbeq
      have := (run_dedup_mode a w _ he).2 hcase
      simp [Ev.isDedupFuzzyEv] at this
    rw [hany, Bool.and_false]
  · have hs : a.removeDuplicateVerticesFuzzy.isSome = true := by
      rw [hcase]; rfl
    have hany : (run a w).1.any (fun e => e == Ev.dedupExact i) = false := by
      by_contra hc
      rw [Bool.not_eq_false, List.any_eq_true] at hc
      rcases hc with ⟨e, he, hbeq⟩
      rw [beq_iff_eq] at hbeq
      subst hbeq
      have := (run_dedup_mode a w _ he).1 hs
      simp [Ev.isDedupExactEv] at this
    rw [hany, Bool.false_and]

/-- C7 counterexample: a mesh carrying the same custom attribute id twice
gets two table entries for that id, refuting "every custom attribute id
present in the carried mesh gets exactly one name entry". -/
theorem attr_table_counterexample :
    ((singleMeshAttributeNames meshDupAttr origDupAttr).filter
      (fun p => p.1 == 7)).length = 2 := rfl

/-- C7 (amended): the constructor records one entry per custom-attribute
occurrence (so an id present `n` times gets `n` entries, each holding the
name resolved from the original source), and for every custom attribute id
present in the carried mesh the `doMeshAttributeName` lookup returns the
eagerly resolved name — in particular the not-recorded
(`CORRADE_INTERNAL_ASSERT_UNREACHABLE`) branch is not reached for such
ids. -/
theorem attr_table_amended (m : MeshData) (orig : Importer) :
    ((singleMeshAttributeNames m orig).length
      = (m.attributes.filter (fun ad => ad.name.isCustom)).length)
    ∧ ∀ id, (∃ ad ∈ m.attributes, ad.name = .custom id) →
        smDoMeshAttributeName (singleMeshAttributeNames m orig) id
          = some (orig.meshAttributeName id) := by
  have h1 : ∀ l : List MeshAttributeData,
      (l.filterMap fun ad => match ad.name with
        | .custom id => some (id, orig.meshAttributeName id)
        | .builtin _ => none).length
      = (l.filter fun ad => ad.name.isCustom).length := by
    intro l
    induction l with
    | nil => rfl
    | cons ad rest ih =>
      rcases h : ad.name with n | id <;>
        simp [List.filterMap_cons, List.filter_cons, h,
          MeshAttribute.isCustom, ih]
  have h2 : ∀ (l : List MeshAttributeData) (id : Nat),
      (∃ ad ∈ l, ad.name = .custom id) →
      smDoMeshAttributeName (l.filterMap fun ad => match ad.name with
        | .custom i => some (i, orig.meshAttributeName i)
        | .builtin _ => none) id = some (orig.meshAttributeName id) := by
    intro l
    induction l with
    | nil =>
      intro id h
      rcases h with ⟨ad, h, _⟩
      simp at h
    | cons ad rest ih =>
      intro id h
      rcases hn : ad.name with n | i
      · simp only [List.filterMap_cons, hn]
        apply ih
        rcases h with ⟨ad', hmem, hname⟩
        rcases List.mem_cons.1 hmem with h' | h'
        · subst h'; rw [hn] at hname; simp at hname
        · exact ⟨ad', h', hname⟩
      · simp only [List.filterMap_cons, hn]
        by_cases hi : i = id
        · subst hi
          simp [smDoMeshAttributeName]
        · have hstep : smDoMeshAttributeName ((i, orig.meshAttributeName i) ::
              (rest.filterMap fun ad => match ad.name with
                | .custom i => some (i, orig.meshAttributeName i)
                | .builtin _ => none)) id
              = smDoMeshAttributeName (rest.filterMap fun ad =>
                  match ad.name with
                  | .custom i => some (i, orig.meshAttributeName i)
                  | .builtin _ => none) id := by
            simp [smDoMeshAttributeName, hi]
          rw [hstep]
          apply ih
          rcases h with ⟨ad', hmem, hname⟩
          rcases List.mem_cons.1 hmem with h' | h'
          · subst h'
            rw [hn] at hname
            injection hname with h''
            exact absurd h'' hi
          · exact ⟨ad', h', hname⟩
  exact ⟨h1 m.attributes, fun id h => h2 m.attributes id h⟩

/-- Witness for the amended C7 at a concrete mesh and source. -/
theorem attr_table_amended_witness :
    smDoMeshAttributeName (singleMeshAttributeNames meshOneAttr origOneAttr) 9
      = some "name9" :=
  (attr_table_amended meshOneAttr origOneAttr).2 9
    ⟨⟨.custom 9⟩, by simp [meshOneAttr], rfl⟩

/-- C9: within each converter-chain stage the content mask is freshly
initialized to the full mask and only ever mutated downward — every mask
passed to `addSupportedImporterContents`, in any stage of any run, is the
full mask with at most the `Meshes` bit cleared, hence always a subset of
the stage's initial mask; no mask value is carried across stages or runs. -/
theorem contents_monotone (a : Args) (w : World) (i : Nat) (c : SceneContents)
    (h : Ev.addContents i c ∈ (run a w).1) :
    (c = fullContents ∨ c = fullContents.clearMeshes)
    ∧ SceneContents.subset c fullContents = true := by
  have hmem := run_trace_mem
    (P := fun e => ∀ i' c', e = .addContents i' c' →
      c' = fullContents ∨ c' = fullContents.clearMeshes) a w ?_ ?_ ?_ ?_ ?_
  · have hval := hmem _ h i c rfl
    refine ⟨hval, ?_⟩
    rcases hval with h' | h' <;> subst h' <;> decide
  · intro e he i' c' heq
    subst heq
    have := genericChecks_major a _ he
    simp [Ev.major] at this
  · intro e he i' c' heq
    subst heq
    have := setupImporter_major a w _ he
    simp [Ev.major] at this
  · intro imp e he i' c' heq
    subst heq
    have := singleMeshStage_major a w imp _ he
    simp [Ev.major] at this
  · intro imp e he i' c' heq
    subst heq
    have := preprocessMeshes_major a w imp _ he
    simp [Ev.major] at this
  · intro idx names imp ms e he i' c' heq
    subst heq
    exact convChainGo_addContents w names idx imp ms i' c' he

/-- Witness for C9 at a concrete run whose chain both consumes loose meshes
(mask with `Meshes` cleared) and was freshly initialized. -/
theorem contents_monotone_witness :
    (fullContents.clearMeshes = fullContents
      ∨ fullContents.clearMeshes = fullContents.clearMeshes)
    ∧ SceneContents.subset fullContents.clearMeshes fullContents = true :=
  contents_monotone argsDedup baseWorld 0 fullContents.clearMeshes (by decide)

/-- C3 counterexample: a whole-scene run (no `--mesh`, no
`--concatenate-meshes`) whose first, non-last stage declares only
`ConvertMesh` does not fail with the feature-mismatch error before data is
added — the capability check passes, importer contents are added to that
stage, and the run finishes with exit 0. -/
theorem nonlast_convertmesh_counterexample :
    (run argsMeshOnly worldMeshOnly).2 = .exit 0
    ∧ Ev.featureMismatch 0 ∉ (run argsMeshOnly worldMeshOnly).1
    ∧ Ev.addContents 0 fullContents ∈ (run argsMeshOnly worldMeshOnly).1 := by
  decide

/-- C3 (amended): a first, non-last converter stage aborts with the
feature-mismatch error (exit 6), before `begin` and before any data is
added, exactly when it declares neither `ConvertMesh` nor `ConvertMultiple`;
a `ConvertMesh`-only stage passes the capability check regardless of the
conversion mode. -/
theorem nonlast_feature_mismatch_amended (w : World) (idx : Nat)
    (imp : Importer) (ms : List MeshData) (nm : String) (rest : List String)
    (c : Converter)
    (hplug : w.converterPlugin nm = some c)
    (hnl : isLastStage c (nm :: rest) = false)
    (hcm : c.features.convertMesh = false)
    (hmm : c.features.convertMultiple = false) :
    convChainGo w idx (nm :: rest) imp ms
      = ([.loadConverterPlugin idx, .featureMismatch idx], .exit 6) := by
  unfold convChainGo beginStage
  rw [hplug]
  dsimp only
  rw [hnl, hcm, hmm]
  simp

/-- Witness for the amended C3 at a concrete no-capability stage. -/
theorem nonlast_feature_mismatch_amended_witness :
    convChainGo worldNoFeatures 0 ["AnySceneConverter"] sampleImporter []
      = ([.loadConverterPlugin 0, .featureMismatch 0], .exit 6) :=
  nonlast_feature_mismatch_amended worldNoFeatures 0 sampleImporter []
    "AnySceneConverter" [] noFeatureConverter rfl rfl rfl rfl

/-- C2 counterexample: two distinct failure classes — a bad option
combination (`--mesh` with `--concatenate-meshes`) and a mid-chain `add`
failure — both exit with code 1, refuting pairwise distinctness of the
seven classes' exit codes. -/
theorem exit_codes_counterexample :
    (run argsBadOption baseWorld).2 = .exit 1
    ∧ Ev.configError ∈ (run argsBadOption baseWorld).1
    ∧ (run argsDedup worldAddFail).2 = .exit 1
    ∧ Ev.addMesh 0 0 ∈ (run argsDedup worldAddFail).1 := by
  decide

/-- C2 (amended): the failure classes map to exit codes as follows — bad
option combination 1, source-open failure 3, mesh-import failure in the
preprocessing loop 1 (but 4 for the `--mesh` single-mesh import),
converter-not-found 2, converter-feature-mismatch 6, mid-chain add failure
1, finalize (`endFile`) failure 5.  Source-open, converter-not-found,
feature-mismatch, finalize and single-mesh-import failures are mutually
distinguishable and distinguishable from the rest, but bad option
combination, loop mesh-import failure and mid-chain add failure all share
exit code 1. -/
theorem exit_codes_amended :
    (run argsBadOption baseWorld).2 = .exit 1
    ∧ (run baseArgs worldOpenFail).2 = .exit 3
    ∧ (run argsDedup worldImportFail).2 = .exit 1
    ∧ (run argsMesh0 worldImportFail).2 = .exit 4
    ∧ (run baseArgs worldNotFound).2 = .exit 2
    ∧ (run baseArgs worldNoFeatures).2 = .exit 6
    ∧ (run argsDedup worldAddFail).2 = .exit 1
    ∧ (run baseArgs worldEndFileFail).2 = .exit 5 := by
  decide

/-- Event characterization of a chain iteration started with a non-empty
loose mesh array: any content-addition at the starting stage carries the
meshes-cleared mask, and loose-mesh adds or skips happen only at the
starting stage. -/
theorem convChainGo_nonempty_events (w : World) (names : List String)
    (idx : Nat) (imp : Importer) (ms : List MeshData) (h : ms ≠ []) :
    ∀ e ∈ (convChainGo w idx names imp ms).1,
      (∀ c', e = .addContents idx c' → c' = fullContents.clearMeshes)
      ∧ (∀ i k, e = .addMesh i k → i = idx)
      ∧ (∀ i, e = .skipMeshes i → i = idx) := by
  cases names with
  | nil => simp [convChainGo]
  | cons nm rest =>
    intro e he
    have hTail : ∀ imp2, e ∈ (convChainGo w (idx+1) rest imp2 []).1 →
        (∀ c', e = .addContents idx c' → c' = fullContents.clearMeshes)
        ∧ (∀ i k, e = .addMesh i k → i = idx)
        ∧ (∀ i, e = .skipMeshes i → i = idx) := by
      intro imp2 hmem
      refine ⟨fun c' heq => ?_, fun i k heq => ?_, fun i heq => ?_⟩
      · subst heq
        have := convChainGo_stage_ge w rest (idx+1) imp2 [] _ hmem idx
          (by simp [Ev.stageIdx])
        omega
      · subst heq
        rcases convChainGo_empty_events w rest (idx+1) imp2 _ hmem with
          ⟨_, h'⟩ | ⟨_, h'⟩ | ⟨_, h'⟩ | ⟨_, h'⟩ | ⟨_, h'⟩ | ⟨_, h'⟩ <;>
          simp at h'
      · subst heq
        rcases convChainGo_empty_events w rest (idx+1) imp2 _ hmem with
          ⟨_, h'⟩ | ⟨_, h'⟩ | ⟨_, h'⟩ | ⟨_, h'⟩ | ⟨_, h'⟩ | ⟨_, h'⟩ <;>
          simp at h'
    have hB : ∀ (c : Converter) (tB : Trace) (r : Option ExitStatus),
        beginStage c idx (isLastStage c (nm :: rest)) = (tB, r) →
        e ∈ tB →
        (∀ c', e = .addContents idx c' → c' = fullContents.clearMeshes)
        ∧ (∀ i k, e = .addMesh i k → i = idx)
        ∧ (∀ i, e = .skipMeshes i → i = idx) := by
      intro c tB r heqB hmem
      rcases beginStage_events c idx _ _ (by rw [heqB]; exact hmem) with
        h' | h' | h' <;> subst h' <;>
        exact ⟨fun c' heq => by simp at heq, fun i k heq => by simp at heq,
          fun i heq => by simp at heq⟩
    have hM : ∀ (c : Converter) (tM : Trace) (x : SceneContents)
        (y : List MeshData) (z : Option ExitStatus),
        looseMeshStep c imp idx fullContents ms = (tM, x, y, z) →
        e ∈ tM →
        (∀ c', e = .addContents idx c' → c' = fullContents.clearMeshes)
        ∧ (∀ i k, e = .addMesh i k → i = idx)
        ∧ (∀ i, e = .skipMeshes i → i = idx) := by
      intro c tM x y z heqM hmem
      rcases looseMeshStep_events c imp idx fullContents ms _
          (by rw [heqM]; exact hmem) with h' | ⟨k, id, h'⟩ | ⟨k, h'⟩ <;>
        subst h'
      · exact ⟨fun c' heq => by simp at heq, fun i k heq => by simp at heq,
          fun i heq => by injection heq with h''; omega⟩
      · exact ⟨fun c' heq => by simp at heq, fun i k heq => by simp at heq,
          fun i heq => by simp at heq⟩
      · exact ⟨fun c' heq => by simp at heq,
          fun i k' heq => by injection heq with h1 h2; omega,
          fun i heq => by simp at heq⟩
    have hLoad : (∀ c', Ev.loadConverterPlugin idx = Ev.addContents idx c' →
          c' = fullContents.clearMeshes)
        ∧ (∀ i k, Ev.loadConverterPlugin idx = Ev.addMesh i k → i = idx)
        ∧ (∀ i, Ev.loadConverterPlugin idx = Ev.skipMeshes i → i = idx) :=
      ⟨fun c' heq => by simp at heq, fun i k heq => by simp at heq,
        fun i heq => by simp at heq⟩
    unfold convChainGo at he
    split at he
    · simp at he; subst he; exact hLoad
    · rename_i c heqc
      split at he
      · rename_i tB st heqB
        rcases List.mem_cons.1 he with h' | h'
        · subst h'; exact hLoad
        · exact hB c tB _ heqB h'
      · rename_i tB heqB
        split at he
        · rename_i tM x y st heqM
          rcases List.mem_cons.1 he with h' | h'
          · subst h'; exact hLoad
          · rcases List.mem_append.1 h' with h2 | h2
            · exact hB c tB _ heqB h2
            · exact hM c tM x y _ heqM h2
        · rename_i tM contents2 ms2 heqM
          have hcons := looseMeshStep_consumes c imp idx fullContents ms tM
            contents2 ms2 h heqM
          have hAC : (∀ c', Ev.addContents idx contents2
                = Ev.addContents idx c' → c' = fullContents.clearMeshes)
              ∧ (∀ i k, Ev.addContents idx contents2 = Ev.addMesh i k →
                  i = idx)
              ∧ (∀ i, Ev.addContents idx contents2 = Ev.skipMeshes i →
                  i = idx) := by
            refine ⟨fun c' heq => ?_, fun i k heq => by simp at heq,
              fun i heq => by simp at heq⟩
            injection heq with h1 h2
            rw [← h2]
            exact hcons.1
          have hEF : (∀ c', Ev.endFile idx = Ev.addContents idx c' →
                c' = fullContents.clearMeshes)
              ∧ (∀ i k, Ev.endFile idx = Ev.addMesh i k → i = idx)
              ∧ (∀ i, Ev.endFile idx = Ev.skipMeshes i → i = idx) :=
            ⟨fun c' heq => by simp at heq, fun i k heq => by simp at heq,
              fun i heq => by simp at heq⟩
          split_ifs at he
          · rcases List.mem_cons.1 he with h' | h'
            · subst h'; exact hLoad
            · rcases List.mem_append.1 h' with h2 | h2
              · rcases List.mem_append.1 h2 with h3 | h3
                · exact hB c tB _ heqB h3
                · exact hM c tM _ _ _ heqM h3
              · simp at h2; subst h2; exact hAC
          · rcases List.mem_cons.1 he with h' | h'
            · subst h'; exact hLoad
            · rcases List.mem_append.1 h' with h2 | h2
              · rcases List.mem_append.1 h2 with h3 | h3
                · exact hB c tB _ heqB h3
                · exact hM c tM _ _ _ heqM h3
              · rcases List.mem_cons.1 h2 with h3 | h3
                · subst h3; exact hAC
                · simp at h3; subst h3; exact hEF
          · rcases List.mem_cons.1 he with h' | h'
            · subst h'; exact hLoad
            · rcases List.mem_append.1 h' with h2 | h2
              · rcases List.mem_append.1 h2 with h3 | h3
                · exact hB c tB _ heqB h3
                · exact hM c tM _ _ _ heqM h3
              · rcases List.mem_cons.1 h2 with h3 | h3
                · subst h3; exact hAC
                · simp at h3; subst h3; exact hEF
          · rcases hE : c.endResult with _ | imp2 <;> rw [hE] at he <;>
              dsimp only at he
            · rcases List.mem_cons.1 he with h' | h'
              · subst h'; exact hLoad
              · rcases List.mem_append.1 h' with h2 | h2
                · rcases List.mem_append.1 h2 with h3 | h3
                  · exact hB c tB _ heqB h3
                  · exact hM c tM _ _ _ heqM h3
                · simp at h2; subst h2; exact hAC
            · rcases List.mem_cons.1 he with h' | h'
              · subst h'; exact hLoad
              · rcases List.mem_append.1 h' with h2 | h2
                · rcases List.mem_append.1 h2 with h3 | h3
                  · rcases List.mem_append.1 h3 with h4 | h4
                    · exact hB c tB _ heqB h4
                    · exact hM c tM _ _ _ heqM h4
                  · simp at h3; subst h3; exact hAC
                · rw [hcons.2] at h2
                  exact hTail imp2 h2

/-- C10: a converter-chain iteration started with a non-empty loose mesh
array always consumes it — the `Meshes` category is cleared from the mask
passed to `addSupportedImporterContents` at that stage (also when the
converter cannot accept meshes and they were skipped with a warning), and
no later stage ever adds or skips loose meshes again: the array is emptied
for good rather than deferred. -/
theorem loose_meshes_dropped (w : World) (names : List String) (idx : Nat)
    (imp : Importer) (ms : List MeshData) (h : ms ≠ []) :
    (∀ c', Ev.addContents idx c' ∈ (convChainGo w idx names imp ms).1 →
      c' = fullContents.clearMeshes)
    ∧ (∀ i k, Ev.addMesh i k ∈ (convChainGo w idx names imp ms).1 → i = idx)
    ∧ (∀ i, Ev.skipMeshes i ∈ (convChainGo w idx names imp ms).1 → i = idx) := by
  refine ⟨fun c' hmem => ?_, fun i k hmem => ?_, fun i hmem => ?_⟩
  · exact (convChainGo_nonempty_events w names idx imp ms h _ hmem).1 c' rfl
  · exact (convChainGo_nonempty_events w names idx imp ms h _ hmem).2.1 i k rfl
  · exact (convChainGo_nonempty_events w names idx imp ms h _ hmem).2.2 i rfl

/-- Witness for C10 on a chain whose converter cannot accept meshes, so the
loose meshes are skipped with a warning — the mask is cleared anyway. -/
theorem loose_meshes_dropped_witness :
    fullContents.clearMeshes = fullContents.clearMeshes ∧ (0 : Nat) = 0 :=
  ⟨(loose_meshes_dropped worldSkipMeshes ["AnySceneConverter"] 0
      sampleImporter [sampleMesh] (by simp)).1
      fullContents.clearMeshes (by decide),
   (loose_meshes_dropped worldSkipMeshes ["AnySceneConverter"] 0
      sampleImporter [sampleMesh] (by simp)).2.2 0 (by decide)⟩

theorem isFilter_major {e : Ev} (h : e.isFilter = true) : e.major = 2 := by
  cases e <;> simp_all [Ev.isFilter, Ev.major]

theorem isPostFilterOp_major {e : Ev} (h : e.isPostFilterOp = true) :
    e.major = 3 := by
  cases e <;> simp_all [Ev.isPostFilterOp, Ev.isDedupExactEv,
    Ev.isDedupFuzzyEv, Ev.major]

theorem dedupBlock_events (a : Args) (w : World) (i : Nat) (m : MeshData) :
    ∀ e ∈ (dedupBlock a w i m).1,
      e = .dedupExact i ∨ e = .dedupFuzzy i := by
  unfold dedupBlock
  split
  · simp
  · split <;> simp

/-- Positional ordering through a trace decomposition. -/
theorem pos_lt_of_eq {tr A B : Trace} {P Q : Ev → Bool} (hEq : tr = A ++ B)
    (hPB : ∀ e ∈ B, P e = false) (hQA : ∀ e ∈ A, Q e = false)
    {p q : Nat} (hp : p < tr.length) (hq : q < tr.length)
    (hPp : P (tr[p]) = true) (hQq : Q (tr[q]) = true) : p < q := by
  subst hEq
  exact pos_lt_of_append hPB hQA hp hq hPp hQq

/-- C1 counterexample: a run requesting both attribute-id filtering and
exact duplicate removal on the same mesh applies the filtering strictly
before the duplicate removal, refuting the claimed order (duplicate removal
first, then filtering). -/
theorem preprocess_order_counterexample :
    ((run argsFilterDedup baseWorld).1.any Ev.isFilter = true)
    ∧ ((run argsFilterDedup baseWorld).1.any (Ev.isDedupOf 0) = true)
    ∧ (run argsFilterDedup baseWorld).1.findIdx Ev.isFilter
        < (run argsFilterDedup baseWorld).1.findIdx (Ev.isDedupOf 0) := by
  decide

/-- C1 (amended): for every run, the per-mesh operations are applied
strictly in this order — (1) attribute-id filtering if requested (applied
once, to the single mesh in scope, before the single-mesh source is
synthesized), then (2) duplicate-vertex removal if requested, then (3) each
mesh-level converter plugin in turn: every filtering event precedes every
duplicate-removal and mesh-converter event in the run trace, and within the
per-mesh preprocessing of mesh `i` every duplicate-removal event precedes
every mesh-converter application. -/
theorem preprocess_order_amended (a : Args) (w : World) :
    (∀ p q, (hp : p < (run a w).1.length) → (hq : q < (run a w).1.length) →
      Ev.isFilter ((run a w).1[p]) = true →
      Ev.isPostFilterOp ((run a w).1[q]) = true → p < q)
    ∧ (∀ i m p q, (hp : p < (preprocessOne a w i m).1.length) →
        (hq : q < (preprocessOne a w i m).1.length) →
        Ev.isDedupOf i ((preprocessOne a w i m).1[p]) = true →
        Ev.isMeshConvertOf i ((preprocessOne a w i m).1[q]) = true →
        p < q) := by
  constructor
  · intro p q hp hq hP hQ
    obtain ⟨A, B, hEq, hA, hB⟩ := run_split a w
    refine pos_lt_of_eq hEq ?_ ?_ hp hq hP hQ
    · intro e he
      cases hF : e.isFilter
      · rfl
      · exfalso
        have h1 := isFilter_major hF
        have h2 := hB e he
        omega
    · intro e he
      cases hF : e.isPostFilterOp
      · rfl
      · exfalso
        have h1 := isPostFilterOp_major hF
        have h2 := hA e he
        omega
  · intro i m p q hp hq hP hQ
    obtain ⟨t1, m1, heq1⟩ : ∃ t1 m1, dedupBlock a w i m = (t1, m1) :=
      ⟨_, _, rfl⟩
    obtain ⟨t2, r, heq2⟩ :
        ∃ t2 r, meshConvFold w i 0 a.meshConverters m1 = (t2, r) :=
      ⟨_, _, rfl⟩
    have hEq : (preprocessOne a w i m).1 = t1 ++ t2 := by
      unfold preprocessOne
      rw [heq1]
      dsimp only
      rw [heq2]
    refine pos_lt_of_eq hEq ?_ ?_ hp hq hP hQ
    · intro e he
      have hnd := meshConvFold_no_dedup w a.meshConverters i 0 m1 e
        (by rw [heq2]; exact he)
      cases e <;> simp_all [Ev.isDedupOf, Ev.isDedupExactEv,
        Ev.isDedupFuzzyEv]
    · intro e he
      rcases dedupBlock_events a w i m e (by rw [heq1]; exact he) with
        h' | h' <;> subst h' <;> rfl

/-- Witness for the amended C1: in a concrete run the filter event (index 4)
precedes the dedup event (index 6), and in a concrete per-mesh
preprocessing the dedup event (index 0) precedes the mesh-converter event
(index 2). -/
theorem preprocess_order_amended_witness :
    (4 : Nat) < 6 ∧ (0 : Nat) < 2 :=
  ⟨(preprocess_order_amended argsFilterDedup baseWorld).1 4 6 (by decide)
      (by decide) (by decide) (by decide),
   (preprocess_order_amended argsMeshConv worldMeshConv).2 0 sampleMesh 0 2
      (by decide) (by decide) (by decide) (by decide)⟩

/-- Violating the summable-topology precondition makes `concatenate`
refuse (the modelled fatal assertion). -/
theorem concatenate_eq_none_of_not_summable {l : List MeshData}
    (h : summableTopology l = false) : concatenate l = none := by
  cases l with
  | nil => rfl
  | cons m rest =>
    have h' : (primitiveSummable m.primitive
        && rest.all (fun x => x.primitive == m.primitive)) = false := h
    unfold concatenate
    simp [h']

/-- C4: every concatenation request over meshes that do not share a
directly-summable primitive topology — any mesh count, any mix (such as
triangles with lines) or any strip/fan form, whether the meshes come
straight in import order (no default scene) or through the flattened
default-scene hierarchy — dies in `MeshTools::concatenate`'s fatal
assertion before any converter stage opens, so no output file is begun or
finalized.  `ms` is the imported mesh list and `msC` the list actually
concatenated (equal to `ms` without a scene, the hierarchy-flattened list
with one). -/
theorem concat_incompatible_aborts (a : Args) (w : World)
    (ms msC : List MeshData) (t : Trace)
    (hcat : a.concatenateMeshes = true)
    (hmesh : a.mesh = none)
    (hlevel : a.meshLevel = none)
    (hinfo : a.infoRequested = false)
    (hplug : w.importerPluginOk = true)
    (hopen : w.openOk = true)
    (hn : w.importer.meshCount ≠ 0)
    (himp : importConcatLoop w.importer (List.range w.importer.meshCount)
      = (t, Except.ok ms))
    (hwhich : (w.importer.defaultScene = none ∧ msC = ms)
      ∨ (∃ s sc, w.importer.defaultScene = some s
          ∧ w.importer.scene s = some sc
          ∧ msC = (flattenMeshHierarchy3D sc).filterMap
              fun p => (ms.get? p.1).map fun m => transform3D m p.2))
    (hbad : summableTopology msC = false) :
    (run a w).2 = .abort
    ∧ (∀ i, Ev.beginFile i ∉ (run a w).1)
    ∧ (∀ i, Ev.endFile i ∉ (run a w).1) := by
  have hnone : concatenate msC = none :=
    concatenate_eq_none_of_not_summable hbad
  have hne : (w.importer.meshCount == 0) = false := by
    simpa using hn
  obtain ⟨tbr, hbrEq⟩ : ∃ tbr, concatenateMeshesBranch w.importer
      = (tbr, Except.error ExitStatus.abort) := by
    rcases hwhich with ⟨hsc, hmsC⟩ | ⟨s, sc, hs, hsceq, hmsC⟩
    · refine ⟨t ++ [Ev.concatenate], ?_⟩
      unfold concatenateMeshesBranch
      rw [if_neg (by rw [hne]; exact Bool.false_ne_true), himp]
      dsimp only
      rw [hsc]
      dsimp only
      have hnone2 : concatenate ms = none := by
        rw [← hmsC]; exact hnone
      rw [hnone2]
    · refine ⟨t ++ [Ev.importScene, Ev.concatenate], ?_⟩
      unfold concatenateMeshesBranch
      rw [if_neg (by rw [hne]; exact Bool.false_ne_true), himp]
      dsimp only
      rw [hs]
      dsimp only
      rw [hsceq]
      dsimp only
      have hnone2 := hnone
      rw [hmsC] at hnone2
      rw [hnone2]
  have h0 : genericChecks a = ([], none) := by
    unfold genericChecks
    rw [hcat, hmesh, hlevel]
    simp
  have h1 : setupImporter a w
      = ([.constructManagers, .loadImporterPlugin, .openInput], .ok ()) := by
    unfold setupImporter
    rw [hplug, hopen, hinfo]
    simp
  have hsm : singleMeshStage a w w.importer
      = (tbr, Except.error ExitStatus.abort) := by
    unfold singleMeshStage
    rw [hcat]
    simp only [Bool.true_or, if_true, if_pos rfl]
    rw [hbrEq]
  have hrun : run a w = ([Ev.constructManagers, Ev.loadImporterPlugin,
      Ev.openInput] ++ tbr, .abort) := by
    unfold run
    rw [h0]
    dsimp only
    rw [h1]
    dsimp only
    rw [hsm]
    rfl
  have htbr : ∀ e ∈ tbr, e.major = 2 := by
    intro e he
    apply concatenateMeshesBranch_major w.importer e
    rw [hbrEq]
    exact he
  refine ⟨by rw [hrun], fun i hmem => ?_, fun i hmem => ?_⟩
  · rw [hrun] at hmem
    rcases List.mem_append.1 hmem with h | h
    · simp at h
    · have := htbr _ h
      simp [Ev.major] at this
  · rw [hrun] at hmem
    rcases List.mem_append.1 hmem with h | h
    · simp at h
    · have := htbr _ h
      simp [Ev.major] at this

/-- Witness for C4 at two concrete instantiations: the claim's
triangle/line mix with no scene, and a triangle-strip mesh reached through
a present default scene's flattened hierarchy. -/
theorem concat_incompatible_aborts_witness :
    ((run argsConcat worldMixed).2 = .abort
      ∧ (∀ i, Ev.beginFile i ∉ (run argsConcat worldMixed).1)
      ∧ (∀ i, Ev.endFile i ∉ (run argsConcat worldMixed).1))
    ∧ ((run argsConcat worldStripScene).2 = .abort
      ∧ (∀ i, Ev.beginFile i ∉ (run argsConcat worldStripScene).1)
      ∧ (∀ i, Ev.endFile i ∉ (run argsConcat worldStripScene).1)) :=
  ⟨concat_incompatible_aborts argsConcat worldMixed
      [meshTri4, meshLin3] [meshTri4, meshLin3]
      [Ev.importMeshConcat 0, Ev.importMeshConcat 1]
      rfl rfl rfl rfl rfl rfl (by decide) rfl (Or.inl ⟨rfl, rfl⟩) rfl,
   concat_incompatible_aborts argsConcat worldStripScene
      [meshTri4, meshStrip2] [meshTri4, meshStrip2]
      [Ev.importMeshConcat 0, Ev.importMeshConcat 1]
      rfl rfl rfl rfl rfl rfl (by decide) rfl
      (Or.inr ⟨0, sceneBoth, rfl, rfl, rfl⟩) rfl⟩

/-- C8: with no default scene, `--concatenate-meshes` leaves every mesh in
world space at the identity transform and concatenates them in import
order: the result's vertex count is the sum of the inputs' and its
attribute set is exactly the first mesh's. -/
theorem concat_no_scene_import_order (imp : Importer) (m1 m2 : MeshData)
    (hcount : imp.meshCount = 2)
    (hm1 : imp.mesh 0 0 = some m1) (hm2 : imp.mesh 1 0 = some m2)
    (hscene : imp.defaultScene = none)
    (hp1 : m1.primitive = .triangles) (hp2 : m2.primitive = .triangles) :
    ∃ m, (concatenateMeshesBranch imp).2 = .ok m
      ∧ m.vertexCount = m1.vertexCount + m2.vertexCount
      ∧ m.attributes = m1.attributes
      ∧ m.primitive = m1.primitive := by
  have hloop : importConcatLoop imp [0, 1]
      = ([.importMeshConcat 0, .importMeshConcat 1], .ok [m1, m2]) := by
    simp [importConcatLoop, hm1, hm2]
  have hcc : concatenate [m1, m2] = some
      { primitive := .triangles, indices := none,
        vertexCount := m1.vertexCount + m2.vertexCount,
        attributes := m1.attributes } := by
    simp [concatenate, hp1, hp2, primitiveSummable]
  have hbr : concatenateMeshesBranch imp
      = ([.importMeshConcat 0, .importMeshConcat 1, .concatenate],
         .ok { primitive := .triangles, indices := none,
               vertexCount := m1.vertexCount + m2.vertexCount,
               attributes := m1.attributes }) := by
    unfold concatenateMeshesBranch
    rw [hcount, show List.range 2 = [0, 1] from rfl, if_neg (by decide),
      hloop]
    dsimp only
    rw [hscene]
    dsimp only
    rw [hcc]
    rfl
  exact ⟨{ primitive := .triangles, indices := none,
           vertexCount := m1.vertexCount + m2.vertexCount,
           attributes := m1.attributes },
    by rw [hbr], rfl, rfl, hp1.symm⟩

/-- Witness for C8: the spec's concrete instance — 4 and 3 vertices make 7,
attributes limited to the first mesh's set. -/
theorem concat_no_scene_import_order_witness :
    ∃ m, (concatenateMeshesBranch twoTriImporter).2 = .ok m
      ∧ m.vertexCount = 7 ∧ m.attributes = meshTri4.attributes := by
  obtain ⟨m, h1, h2, h3, h4⟩ := concat_no_scene_import_order twoTriImporter
    meshTri4 meshTri3 rfl rfl rfl rfl rfl rfl
  exact ⟨m, h1, h2, h3⟩

end SceneConv
